import Mathlib

/-!
Verification development for the CvBuilderBasedOnJob repository.

The repository's core logic lives in `app.py` (PDF column-aware text
extraction `extract_text_from_pdf` / `words_to_text`, LLM JSON repair
`parse_llm_response`, schema normalization `normalize_resume_data`) and
`resume_helpers.py` (keyword-match scorer `compute_ats_score`).  This file
gives a shallow embedding of those functions over a model of decoded
Python/JSON values and proves the specification claims about them.

Modelling conventions:
* decoded JSON values (`dict`, `list`, `str`, `int`, `float`, `bool`,
  `None`) are the inductive `JValue`; Python floats are represented by
  exact rationals, and the two places where the code performs genuine
  IEEE-754 double-precision arithmetic (the score computation
  `int((score / total_weight) * 100)`) are modelled by an exact
  round-to-nearest-even model `roundDouble` over `ℚ`;
* Python `dict`s are association lists with first-match lookup,
  in-place update of an existing key, and append of a fresh key — the
  insertion-order semantics of `dict`;
* `str`, `int`, truthiness and `round` builtins are modelled over the
  ASCII fragment that the repository's data exercises.
-/

set_option maxHeartbeats 1000000
set_option maxRecDepth 100000

namespace CvBuilder

/-- Decoded JSON / Python value, exactly the shapes `json.loads` produces. -/
inductive JValue where
  | null : JValue
  | bool (b : Bool) : JValue
  | int (n : Int) : JValue
  | float (q : ℚ) : JValue
  | str (s : String) : JValue
  | arr (l : List JValue) : JValue
  | obj (m : List (String × JValue)) : JValue
  deriving Repr

namespace JValue

/-- First-match lookup, the model of `d[k]` / `d.get(k)` on a Python dict. -/
def dget (m : List (String × JValue)) (k : String) : Option JValue :=
  match m with
  | [] => none
  | (k', v) :: t => if k' = k then some v else dget t k

/-- `d.get(k, default)`. -/
def dgetD (m : List (String × JValue)) (k : String) (d : JValue) : JValue :=
  (dget m k).getD d

/-- `d[k] = v`: replace the first binding of `k` in place, else append. -/
def dset (m : List (String × JValue)) (k : String) (v : JValue) :
    List (String × JValue) :=
  match m with
  | [] => [(k, v)]
  | (k', v') :: t => if k' = k then (k, v) :: t else (k', v') :: dset t k v

/-- `d.setdefault(k, v)`: insert `k ↦ v` only when `k` is absent. -/
def dsetdefault (m : List (String × JValue)) (k : String) (v : JValue) :
    List (String × JValue) :=
  if (dget m k).isSome then m else m ++ [(k, v)]

end JValue

open JValue

/-- Python truthiness (`if x:`) on decoded JSON values. -/
def pyTruthy : JValue → Bool
  | .null => false
  | .bool b => b
  | .int n => decide (n ≠ 0)
  | .float q => decide (q ≠ 0)
  | .str s => decide (s ≠ "")
  | .arr l => !l.isEmpty
  | .obj m => !m.isEmpty

/-- The whitespace characters of Python `str.strip` / `str.split` / `\s`
(ASCII fragment). -/
def pySpace (c : Char) : Bool :=
  c = ' ' || c = '\t' || c = '\n' || c = '\r' || c = '\x0b' || c = '\x0c'

/-- Python `str.strip()` (ASCII whitespace). -/
def pyStrip (s : String) : String :=
  ⟨(s.data.dropWhile (fun c => pySpace c)).reverse.dropWhile
      (fun c => pySpace c) |>.reverse⟩

/-- Truncation toward zero, the behaviour of Python `int(float)`. -/
def ratTrunc (q : ℚ) : Int :=
  if 0 ≤ q then ⌊q⌋ else ⌈q⌉

/-- Digit run of a Python integer literal: digits with single underscores
strictly between digits (`int("1_0") = 10`). -/
def pyDigitsVal (acc : Nat) : List Char → Option Nat
  | [] => some acc
  | '_' :: c :: t =>
      if c.isDigit then pyDigitsVal (acc * 10 + (c.toNat - 48)) t else none
  | '_' :: [] => none
  | c :: t =>
      if c.isDigit then pyDigitsVal (acc * 10 + (c.toNat - 48)) t else none

/-- Python `int(s)` on a string: strip whitespace, optional sign, base-10
digits (with underscores); `none` models `ValueError`. -/
def pyIntOfString (s : String) : Option Int :=
  let t := (s.data.dropWhile (fun c => pySpace c)).reverse.dropWhile
      (fun c => pySpace c) |>.reverse
  let core : List Char → Option Int := fun u =>
    match u with
    | '-' :: r =>
        match r with
        | c :: _ => if c.isDigit then (pyDigitsVal 0 r).map (fun n => -(n : Int)) else none
        | [] => none
    | '+' :: r =>
        match r with
        | c :: _ => if c.isDigit then (pyDigitsVal 0 r).map (fun n => (n : Int)) else none
        | [] => none
    | c :: _ => if c.isDigit then (pyDigitsVal 0 u).map (fun n => (n : Int)) else none
    | [] => none
  core t

/-- Python `int(x)` on a decoded JSON value; `none` models
`ValueError`/`TypeError` (the exceptions `normalize_resume_data` catches). -/
def pyInt : JValue → Option Int
  | .int n => some n
  | .bool b => some (if b then 1 else 0)
  | .float q => some (ratTrunc q)
  | .str s => pyIntOfString s
  | _ => none

/-- Exact finite decimal rendering used by `floatRepr` when the denominator
divides a power of ten. -/
def decimalDigits (num : Nat) (den : Nat) (k : Nat) : String :=
  let scaled := num * (10 ^ k) / den
  let intPart := scaled / 10 ^ k
  let fracPart := scaled % 10 ^ k
  if k = 0 then toString intPart ++ ".0"
  else
    let fracStr := toString fracPart
    let pad := String.mk (List.replicate (k - fracStr.length) '0')
    toString intPart ++ "." ++ pad ++ fracStr

/-- Rendering of a Python float.  The exact shortest-roundtrip `repr` of a
double is abstracted: we print the exact decimal expansion when finite (the
case for every double), falling back to a fraction rendering.  No claim
observes this text; only `str(str) = str` matters structurally. -/
def floatRepr (q : ℚ) : String :=
  let den := q.den
  let k2 := (Nat.log 2 den) + 1
  let k5 := (Nat.log 5 den) + 1
  let k := max k2 k5
  if den ∣ 10 ^ k then
    (if q < 0 then "-" else "") ++ decimalDigits q.num.natAbs den k
  else
    toString q.num ++ "/" ++ toString q.den

mutual

/-- Python `repr` of a decoded JSON value (ASCII fragment; strings are
rendered with single quotes, written here via `\x27`). -/
def pyRepr : JValue → String
  | .null => "None"
  | .bool b => if b then "True" else "False"
  | .int n => toString n
  | .float q => floatRepr q
  | .str s => "\x27" ++ s ++ "\x27"
  | .arr l => "[" ++ String.intercalate ", " (pyReprList l) ++ "]"
  | .obj m => "\x7b" ++ String.intercalate ", " (pyReprPairs m) ++ "\x7d"

def pyReprList : List JValue → List String
  | [] => []
  | v :: t => pyRepr v :: pyReprList t

def pyReprPairs : List (String × JValue) → List String
  | [] => []
  | (k, v) :: t => ("\x27" ++ k ++ "\x27: " ++ pyRepr v) :: pyReprPairs t

end

/-- Python `str(x)` on a decoded JSON value. -/
def pyStr : JValue → String
  | .str s => s
  | .bool b => if b then "True" else "False"
  | .null => "None"
  | .int n => toString n
  | .float q => floatRepr q
  | .arr l => pyRepr (.arr l)
  | .obj m => pyRepr (.obj m)

/-- `if not isinstance(data, dict): data = {}` — the top-level coercion of
`normalize_resume_data`, and the `if not isinstance(contact, dict)` repair. -/
def asObj : JValue → List (String × JValue)
  | .obj m => m
  | _ => []

/-- `if not isinstance(x, list): x = []` — the list coercion used for
`languages`, `experience`, `education`. -/
def asArr : JValue → List JValue
  | .arr l => l
  | _ => []

/-- `x if isinstance(x, list) else ([str(x)] if x else [])` — the coercion
used for `certifications`, skill `items`, `bullets`, `interests`,
`additional_info`. -/
def coerceToList (v : JValue) : List JValue :=
  match v with
  | .arr l => l
  | _ => if pyTruthy v then [.str (pyStr v)] else []

/-- `[str(e) for e in l]`. -/
def strListOf (l : List JValue) : List JValue :=
  l.map (fun x => .str (pyStr x))

/-- The `name`/`title`/`summary` defaults of `normalize_resume_data`. -/
def stepScalars (m : List (String × JValue)) : List (String × JValue) :=
  dsetdefault (dsetdefault (dsetdefault m "name" (.str "Candidate"))
    "title" (.str "Professional")) "summary" (.str "")

/-- The four `contact.setdefault` calls of `normalize_resume_data`. -/
def normContact (c : List (String × JValue)) : List (String × JValue) :=
  dsetdefault (dsetdefault (dsetdefault (dsetdefault c
    "email" (.str "")) "phone" (.str "")) "location" (.str "")) "age" (.str "")

/-- The `contact` block of `normalize_resume_data`. -/
def stepContact (m : List (String × JValue)) : List (String × JValue) :=
  dset m "contact" (.obj (normContact (asObj (dgetD m "contact" (.obj [])))))

/-- One iteration of the `languages` loop of `normalize_resume_data`:
dict entries get defaults and an integer-coerced `percent`, bare strings
become a fixed record, anything else is dropped. -/
def normLangEntry : JValue → Option JValue
  | .obj m =>
      let m1 := dsetdefault (dsetdefault (dsetdefault m
        "name" (.str "Unknown")) "level" (.str "Basic")) "percent" (.int 50)
      let p := dgetD m1 "percent" (.int 50)
      match pyInt p with
      | some n => some (.obj (dset m1 "percent" (.int n)))
      | none => some (.obj (dset m1 "percent" (.int 50)))
  | .str s =>
      some (.obj [("name", .str s), ("level", .str "Proficient"),
        ("percent", .int 70)])
  | _ => none

/-- The `languages` block of `normalize_resume_data`. -/
def stepLanguages (m : List (String × JValue)) : List (String × JValue) :=
  dset m "languages"
    (.arr ((asArr (dgetD m "languages" (.arr []))).filterMap normLangEntry))

/-- The `certifications` block of `normalize_resume_data`. -/
def stepCerts (m : List (String × JValue)) : List (String × JValue) :=
  dset m "certifications"
    (.arr (strListOf (coerceToList (dgetD m "certifications" (.arr [])))))

/-- The dict-to-list conversion inside the `skills` block:
`[{"category": k, "items": (v if isinstance(v, list) else [str(v)])} ...]`,
with non-list non-dict raw values becoming `[]`. -/
def skillsRaw : JValue → List JValue
  | .arr l => l
  | .obj m =>
      m.map (fun kv =>
        .obj [("category", .str kv.1),
          ("items", .arr (match kv.2 with
            | .arr il => il
            | v => [.str (pyStr v)]))])
  | _ => []

/-- One iteration of the `skills` loop: dict entries are rebuilt as a fresh
two-key record, bare strings become a singleton group, others are dropped. -/
def normSkillEntry : JValue → Option JValue
  | .obj m =>
      some (.obj [("category", .str (pyStr (dgetD m "category" (.str "Skills")))),
        ("items", .arr (strListOf (coerceToList (dgetD m "items" (.arr [])))))])
  | .str s =>
      some (.obj [("category", .str "Skills"), ("items", .arr [.str s])])
  | _ => none

/-- The `skills` block of `normalize_resume_data`. -/
def stepSkills (m : List (String × JValue)) : List (String × JValue) :=
  dset m "skills"
    (.arr ((skillsRaw (dgetD m "skills" (.arr []))).filterMap normSkillEntry))

/-- One iteration of the `experience` loop: only dict entries survive; they
get scalar defaults and stringified `bullets`. -/
def normExpEntry : JValue → Option JValue
  | .obj m =>
      let m1 := dsetdefault (dsetdefault (dsetdefault (dsetdefault m
        "title" (.str "")) "company" (.str "")) "date" (.str ""))
        "location" (.str "")
      some (.obj (dset m1 "bullets"
        (.arr (strListOf (coerceToList (dgetD m1 "bullets" (.arr [])))))))
  | _ => none

/-- The `experience` block of `normalize_resume_data`. -/
def stepExperience (m : List (String × JValue)) : List (String × JValue) :=
  dset m "experience"
    (.arr ((asArr (dgetD m "experience" (.arr []))).filterMap normExpEntry))

/-- One iteration of the `education` loop: only dict entries survive; they
get scalar defaults and `in_progress` defaulted to `False`. -/
def normEduEntry : JValue → Option JValue
  | .obj m =>
      some (.obj (dsetdefault (dsetdefault (dsetdefault (dsetdefault
        (dsetdefault m "degree" (.str "")) "school" (.str ""))
        "year" (.str "")) "details" (.str "")) "in_progress" (.bool false)))
  | _ => none

/-- The `education` block of `normalize_resume_data`. -/
def stepEducation (m : List (String × JValue)) : List (String × JValue) :=
  dset m "education"
    (.arr ((asArr (dgetD m "education" (.arr []))).filterMap normEduEntry))

/-- The `interests` block of `normalize_resume_data`. -/
def stepInterests (m : List (String × JValue)) : List (String × JValue) :=
  dset m "interests"
    (.arr (strListOf (coerceToList (dgetD m "interests" (.arr [])))))

/-- The `additional_info` block of `normalize_resume_data`. -/
def stepAdditional (m : List (String × JValue)) : List (String × JValue) :=
  dset m "additional_info"
    (.arr (strListOf (coerceToList (dgetD m "additional_info" (.arr [])))))

/-- The dict pipeline of `normalize_resume_data`, in source order. -/
def normObj (m : List (String × JValue)) : List (String × JValue) :=
  stepAdditional (stepInterests (stepEducation (stepExperience
    (stepSkills (stepCerts (stepLanguages (stepContact (stepScalars m))))))))

/-- `normalize_resume_data` from `app.py`: coerce a non-dict input to `{}`
and run the per-field repair pipeline. -/
def normalize_resume_data (v : JValue) : JValue :=
  .obj (normObj (asObj v))

/-! ## Keyword-match scorer (`resume_helpers.compute_ats_score`) -/

/-- ASCII `str.lower()`. -/
def pyLower (c : Char) : Char :=
  if 'A' ≤ c ∧ c ≤ 'Z' then Char.ofNat (c.toNat + 32) else c

/-- The character filter of `re.sub(r'[^a-z0-9\s]', ' ', text)`. -/
def cleanChar (c : Char) : Char :=
  if ('a' ≤ c ∧ c ≤ 'z') ∨ ('0' ≤ c ∧ c ≤ '9') ∨ pySpace c then c else ' '

/-- Python `str.split()` with no argument: split on whitespace runs. -/
def splitWsAux : List Char → List Char → List String
  | [], acc => if acc.isEmpty then [] else [String.mk acc.reverse]
  | c :: t, acc =>
      if pySpace c then
        if acc.isEmpty then splitWsAux t []
        else String.mk acc.reverse :: splitWsAux t []
      else splitWsAux t (c :: acc)

def splitWs (l : List Char) : List String := splitWsAux l []

/-- The stop-word set of `extract_keywords`. -/
def stop_words : List String :=
  ["a", "an", "the", "and", "or", "but", "in", "on", "at", "to", "for",
   "with", "by", "of", "is", "are", "was", "were", "be", "been", "being",
   "have", "has", "had", "do", "does", "did", "can", "could", "will",
   "would", "shall", "should", "may", "might", "must", "i", "you", "he",
   "she", "it", "we", "they", "that", "this", "these", "those", "from",
   "as", "if", "when", "where", "why", "how", "all", "any", "both", "each",
   "few", "more", "most", "other", "some", "such", "no", "nor", "not",
   "only", "own", "same", "so", "than", "too", "very"]

/-- `freq[w] = freq.get(w, 0) + 1` on an insertion-ordered dict. -/
def bump (m : List (String × Nat)) (w : String) : List (String × Nat) :=
  match m with
  | [] => [(w, 1)]
  | (k, c) :: t => if k = w then (k, c + 1) :: t else (k, c) :: bump t w

/-- First-match lookup in a keyword frequency map (`w in cv_keywords` /
`cv_keywords[w]`). -/
def freqGet (m : List (String × Nat)) (w : String) : Option Nat :=
  match m with
  | [] => none
  | (k, c) :: t => if k = w then some c else freqGet t w

/-- `extract_keywords` from `resume_helpers.py`: lowercase, strip
non-alphanumerics to spaces, split, drop stop words and words of length
`≤ 2`, and count frequencies in encounter order. -/
def extract_keywords (text : String) : List (String × Nat) :=
  let cleaned := (text.data.map pyLower).map cleanChar
  let words := splitWs cleaned
  let keywords := words.filter (fun w => ¬ stop_words.contains w ∧ w.length > 2)
  keywords.foldl bump []

/-- Stable descending insertion: a new element goes after every existing
element of greater-or-equal count, matching Python
`sorted(..., key=lambda x: x[1], reverse=True)` (Timsort is stable and
`reverse=True` keeps ties in original order). -/
def insertDesc (x : String × Nat) : List (String × Nat) → List (String × Nat)
  | [] => [x]
  | y :: t => if x.2 ≤ y.2 then y :: insertDesc x t else x :: y :: t

/-- `sorted(jd_keywords.items(), key=lambda x: x[1], reverse=True)`. -/
def sortDesc (l : List (String × Nat)) : List (String × Nat) :=
  l.foldl (fun acc x => insertDesc x acc) []

/-! ### Exact model of the IEEE-754 double arithmetic in the score formula

`int((score / total_weight) * 100)` runs in Python floats.  Both binary
operations are correctly rounded, so they are modelled exactly as the
round-to-nearest-even, 53-bit-significand rounding of the exact rational
result (exponent range is irrelevant at these magnitudes). -/

/-- Round a rational to the nearest integer, ties to even. -/
def rndHalfEven (m : ℚ) : ℤ :=
  let f := ⌊m⌋
  let r := m - (f : ℚ)
  if r < 1 / 2 then f
  else if 1 / 2 < r then f + 1
  else if 2 ∣ f then f else f + 1

/-- Round a rational to the nearest double (53-bit significand,
round-to-nearest-even, unbounded exponent). -/
def roundDouble (q : ℚ) : ℚ :=
  if q = 0 then 0
  else
    let s : ℚ := if q < 0 then -1 else 1
    let a := |q|
    let e := Int.log 2 a
    s * (rndHalfEven (a * (2 : ℚ) ^ ((52 : ℤ) - e)) : ℚ) * (2 : ℚ) ^ (e - (52 : ℤ))

/-- Double-precision division. -/
def dblDiv (a b : ℚ) : ℚ := roundDouble (a / b)

/-- Double-precision multiplication. -/
def dblMul (a b : ℚ) : ℚ := roundDouble (a * b)

/-- The Match Report returned by `compute_ats_score`. -/
structure AtsResult where
  score : Int
  matched : List String
  missing : List String
  deriving Repr, DecidableEq

/-- The accumulation loop of `compute_ats_score` over the top keywords,
returning `(score, total_weight, matched, missing)` in iteration order. -/
def atsLoop (cvk : List (String × Nat)) :
    List (String × Nat) → Nat × Nat × List String × List String
  | [] => (0, 0, [], [])
  | (w, wt) :: t =>
      let r := atsLoop cvk t
      match freqGet cvk w with
      | some c => (min c wt + r.1, wt + r.2.1, w :: r.2.2.1, r.2.2.2)
      | none => (r.1, wt + r.2.1, r.2.2.1, w :: r.2.2.2)

/-- `compute_ats_score` from `resume_helpers.py`. -/
def compute_ats_score (cv_text job_description : String) : AtsResult :=
  let jd_keywords := extract_keywords job_description
  let cv_keywords := extract_keywords cv_text
  if jd_keywords.isEmpty then ⟨0, [], []⟩
  else
    let top_keywords := (sortDesc jd_keywords).take 20
    let r := atsLoop cv_keywords top_keywords
    let score := r.1
    let total_weight := r.2.1
    let final0 : Int :=
      if 0 < total_weight then
        ratTrunc (dblMul (dblDiv (score : ℚ) (total_weight : ℚ)) 100)
      else 0
    let final1 : Int := if 0 < final0 then min 100 (final0 + 10) else final0
    ⟨final1, r.2.2.1.take 10, r.2.2.2.take 10⟩

/-! ## JSON parsing (`json.loads`) and `parse_llm_response` -/

/-- JSON whitespace accepted between tokens by `json.loads`. -/
def jsonWs (c : Char) : Bool :=
  c = ' ' || c = '\t' || c = '\n' || c = '\r'

/-- Hexadecimal digit test for `\uXXXX` escapes. -/
def isHex (c : Char) : Bool :=
  c.isDigit || ('a' ≤ c && c ≤ 'f') || ('A' ≤ c && c ≤ 'F')

/-- Value of a hexadecimal digit. -/
def hexVal (x : Char) : Nat :=
  if x.isDigit then x.toNat - 48
  else if 'a' ≤ x ∧ x ≤ 'f' then x.toNat - 87
  else x.toNat - 55

/-- Body of a JSON string after the opening quote, with the escapes
`json.loads` accepts; rejects raw control characters.  (`\uXXXX` yields the
code point; surrogate-pair recombination is not modelled — no claim
exercises it.) -/
def parseStringBody (acc : List Char) : List Char → Option (String × List Char)
  | [] => none
  | '"' :: t => some (String.mk acc.reverse, t)
  | '\\' :: 'u' :: a :: b :: c :: d :: t =>
      if isHex a ∧ isHex b ∧ isHex c ∧ isHex d then
        parseStringBody
          (Char.ofNat (((hexVal a * 16 + hexVal b) * 16 + hexVal c) * 16 +
            hexVal d) :: acc) t
      else none
  | '\\' :: '"' :: t => parseStringBody ('"' :: acc) t
  | '\\' :: '\\' :: t => parseStringBody ('\\' :: acc) t
  | '\\' :: '/' :: t => parseStringBody ('/' :: acc) t
  | '\\' :: 'b' :: t => parseStringBody ('\x08' :: acc) t
  | '\\' :: 'f' :: t => parseStringBody ('\x0c' :: acc) t
  | '\\' :: 'n' :: t => parseStringBody ('\n' :: acc) t
  | '\\' :: 'r' :: t => parseStringBody ('\r' :: acc) t
  | '\\' :: 't' :: t => parseStringBody ('\t' :: acc) t
  | '\\' :: _ => none
  | c :: t =>
      if c.toNat < 32 then none else parseStringBody (c :: acc) t

/-- Digit run for JSON numbers. -/
def takeDigits : List Char → List Char × List Char
  | [] => ([], [])
  | c :: t =>
      if c.isDigit then
        let r := takeDigits t
        (c :: r.1, r.2)
      else ([], c :: t)

def digitsToNat (l : List Char) : Nat :=
  l.foldl (fun a c => a * 10 + (c.toNat - 48)) 0

/-- JSON number grammar `-? (0 | [1-9][0-9]*) (\.[0-9]+)? ([eE][+-]?[0-9]+)?`.
Ints become `.int`; a fraction or exponent yields a `.float` holding the
exact decimal value (Python would round it to a double). -/
def parseNumber (l : List Char) : Option (JValue × List Char) :=
  let signed : Bool × List Char :=
    match l with
    | '-' :: t => (true, t)
    | _ => (false, l)
  let neg := signed.1
  let l1 := signed.2
  let ip : Option (List Char × List Char) :=
    match l1 with
    | '0' :: t => some (['0'], t)
    | c :: t =>
        if c.isDigit ∧ c ≠ '0' then
          let r := takeDigits t
          some (c :: r.1, r.2)
        else none
    | [] => none
  match ip with
  | none => none
  | some (ipd, l2) =>
      match l2 with
      | '.' :: t =>
          let r := takeDigits t
          if r.1.isEmpty then none
          else parseExpPart neg ipd (some r.1) r.2
      | _ => parseExpPart neg ipd none l2
where
  parseExpPart (neg : Bool) (ipd : List Char) (frd : Option (List Char))
      (l : List Char) : Option (JValue × List Char) :=
    match l with
    | e :: t =>
        if e = 'e' ∨ e = 'E' then
          let se : Bool × List Char :=
            match t with
            | '+' :: t' => (false, t')
            | '-' :: t' => (true, t')
            | _ => (false, t)
          let r := takeDigits se.2
          if r.1.isEmpty then none
          else some (mkNum neg ipd frd (some (se.1, r.1)), r.2)
        else some (mkNum neg ipd frd none, l)
    | [] => some (mkNum neg ipd frd none, [])
  mkNum (neg : Bool) (ipd : List Char) (frd : Option (List Char))
      (ex : Option (Bool × List Char)) : JValue :=
    match frd, ex with
    | none, none =>
        let n : Int := digitsToNat ipd
        .int (if neg then -n else n)
    | _, _ =>
        let fl := frd.getD []
        let mantissa : ℚ :=
          (digitsToNat ipd : ℚ) + (digitsToNat fl : ℚ) / (10 : ℚ) ^ fl.length
        let expv : ℤ :=
          match ex with
          | none => 0
          | some (en, ed) =>
              if en then -(digitsToNat ed : Int) else (digitsToNat ed : Int)
        let v := mantissa * (10 : ℚ) ^ expv
        .float (if neg then -v else v)

mutual

/-- Recursive-descent JSON value parser (fuel decreases at every mutual
call); mirrors the grammar `json.loads` accepts (the `NaN`/`Infinity`
extensions aside, which no claim input contains). -/
def parseValue : Nat → List Char → Option (JValue × List Char)
  | 0, _ => none
  | f + 1, l =>
    match l.dropWhile (fun c => jsonWs c) with
    | [] => none
    | '"' :: t => (parseStringBody [] t).map (fun r => (.str r.1, r.2))
    | 't' :: 'r' :: 'u' :: 'e' :: t => some (.bool true, t)
    | 'f' :: 'a' :: 'l' :: 's' :: 'e' :: t => some (.bool false, t)
    | 'n' :: 'u' :: 'l' :: 'l' :: t => some (.null, t)
    | '{' :: t =>
        match t.dropWhile (fun c => jsonWs c) with
        | '}' :: t1 => some (.obj [], t1)
        | t1 => parseMembers f [] t1
    | '[' :: t =>
        match t.dropWhile (fun c => jsonWs c) with
        | ']' :: t1 => some (.arr [], t1)
        | t1 => parseItems f [] t1
    | l1 => parseNumber l1

/-- Members of a JSON object after `{` (at least one expected);
duplicate keys overwrite in place, as Python dicts do. -/
def parseMembers : Nat → List (String × JValue) → List Char →
    Option (JValue × List Char)
  | 0, _, _ => none
  | f + 1, acc, l =>
    match l with
    | '"' :: t =>
        match parseStringBody [] t with
        | none => none
        | some (k, t1) =>
            match t1.dropWhile (fun c => jsonWs c) with
            | ':' :: t2 =>
                match parseValue f t2 with
                | none => none
                | some (v, t3) =>
                    match t3.dropWhile (fun c => jsonWs c) with
                    | ',' :: t4 =>
                        parseMembers f (dset acc k v)
                          (t4.dropWhile (fun c => jsonWs c))
                    | '}' :: t4 => some (.obj (dset acc k v), t4)
                    | _ => none
            | _ => none
    | _ => none

/-- Items of a JSON array after `[` (at least one expected). -/
def parseItems : Nat → List JValue → List Char → Option (JValue × List Char)
  | 0, _, _ => none
  | f + 1, acc, l =>
    match parseValue f l with
    | none => none
    | some (v, t) =>
        match t.dropWhile (fun c => jsonWs c) with
        | ',' :: t1 => parseItems f (acc ++ [v]) t1
        | ']' :: t1 => some (.arr (acc ++ [v]), t1)
        | _ => none

end

/-- `json.loads`: parse one JSON value and require only whitespace after. -/
def pyJsonLoads (s : String) : Option JValue :=
  let l := s.data
  match parseValue (l.length + 1) l with
  | none => none
  | some (v, rest) =>
      if (rest.dropWhile (fun c => jsonWs c)).isEmpty then some v else none

/-- Lazy-content scan of `(.*?)\n?` + closing fence: the shortest prefix
whose remainder is ```` ``` ```` optionally preceded by one newline. -/
def fenceContent (acc : List Char) : List Char → Option String
  | '`' :: '`' :: '`' :: _ => some (String.mk acc.reverse)
  | '\n' :: '`' :: '`' :: '`' :: _ => some (String.mk acc.reverse)
  | c :: t => fenceContent (c :: acc) t
  | [] => none

/-- After an opening ```` ``` ````: optionally consume `json`, consume the
greedy `\s*` (which also absorbs the optional newline), then take the lazy
content up to the closing fence. -/
def fenceAfterTicks (l : List Char) : Option String :=
  let l1 :=
    match l with
    | 'j' :: 's' :: 'o' :: 'n' :: t => t
    | _ => l
  fenceContent [] (l1.dropWhile (fun c => pySpace c))

/-- Model of `re.search(r"```(?:json)?\s*\n?(.*?)\n?```", text, re.DOTALL)`:
return the captured group of the leftmost match.  The match must start at
the first ```` ``` ```` occurrence; if no closing fence follows it, no later
start can succeed either (the skipped `json`/whitespace characters contain
no backticks, and the scan passes over every later backtick run). -/
def findFence : List Char → Option String
  | '`' :: '`' :: '`' :: t => fenceAfterTicks t
  | _ :: t => findFence t
  | [] => none

/-- Model of `re.search(r"\{.*\}", text, re.DOTALL)`: with a greedy `.*`,
the match runs from the first `\x7b` to the last `\x7d` when that brace
pair exists in that order. -/
def braceSpan (l : List Char) : Option String :=
  let pre := l.dropWhile (fun c => c ≠ '{')
  match pre with
  | '{' :: t =>
      let rev := ('{' :: t).reverse
      let revCore := rev.dropWhile (fun c => c ≠ '}')
      match revCore with
      | '}' :: _ => some (String.mk revCore.reverse)
      | _ => none
  | _ => none

/-- State machine for `re.sub(r",\s*([}\]])", r"\1", text)`.  The first
argument is the pending (reversed) `,` + whitespace run of a candidate
match; whitespace never starts a match, so a failed candidate can emit its
pending characters and resume at the current character. -/
def stcAux : List Char → List Char → List Char
  | p, [] => p.reverse
  | p, c :: t =>
      match p with
      | [] => if c = ',' then stcAux [','] t else c :: stcAux [] t
      | _ =>
          if pySpace c then stcAux (c :: p) t
          else if c = '}' ∨ c = ']' then c :: stcAux [] t
          else if c = ',' then p.reverse ++ stcAux [','] t
          else p.reverse ++ (c :: stcAux [] t)

/-- Model of `re.sub(r",\s*([}\]])", r"\1", text)`: every comma followed by
whitespace and a closing bracket is replaced by the bracket alone. -/
def stripTrailingCommas (l : List Char) : List Char := stcAux [] l

/-- Strategy 1 of `parse_llm_response`: direct `json.loads` of the stripped
response. -/
def strat1 (rt : String) : Option JValue :=
  pyJsonLoads (pyStrip rt)

/-- Strategy 2: extract a Markdown code fence and parse its stripped body. -/
def strat2 (rt : String) : Option JValue :=
  (findFence (pyStrip rt).data).bind (fun g => pyJsonLoads (pyStrip g))

/-- Strategy 3: parse the first-to-last brace span. -/
def strat3 (rt : String) : Option JValue :=
  (braceSpan (pyStrip rt).data).bind pyJsonLoads

/-- Strategy 4: parse after deleting trailing commas before closing
brackets. -/
def strat4 (rt : String) : Option JValue :=
  pyJsonLoads (String.mk (stripTrailingCommas (pyStrip rt).data))

/-- `parse_llm_response` from `app.py`, with the control flow of the
source: each recovery is attempted only after the previous ones failed;
`none` models the final `raise`. -/
def parse_llm_response (response_text : String) : Option JValue :=
  let text := pyStrip response_text
  match pyJsonLoads text with
  | some v => some v
  | none =>
    match findFence text.data with
    | some g =>
        match pyJsonLoads (pyStrip g) with
        | some v => some v
        | none => afterFence text
    | none => afterFence text
where
  afterFence (text : String) : Option JValue :=
    match braceSpan text.data with
    | some b =>
        match pyJsonLoads b with
        | some v => some v
        | none => pyJsonLoads (String.mk (stripTrailingCommas text.data))
    | none => pyJsonLoads (String.mk (stripTrailingCommas text.data))

/-! ## Column-aware PDF text extraction (`extract_text_from_pdf`)

Token coordinates from `pdfplumber` are Python floats; they are modelled
as exact rationals (every double is one), and `round` is modelled as
round-half-to-even, the Python builtin's rule. -/

/-- A Positioned Token: a word with its left edge `x0` and vertical
offset `top`, as produced by `page.extract_words`. -/
structure PToken where
  text : String
  x0 : ℚ
  top : ℚ
  deriving Repr, DecidableEq

/-- The quantized vertical band `round(top / 5) * 5` used both as primary
sort key and for line grouping. -/
def band (t : PToken) : Int :=
  rndHalfEven (t.top / 5) * 5

/-- The sort key comparison `(round(top/5)*5, x0)` of the extractor. -/
def tokKeyLE (a b : PToken) : Bool :=
  decide (band a < band b ∨ (band a = band b ∧ a.x0 ≤ b.x0))

/-- Stable ascending insertion for `sorted(..., key=...)`: a new element
goes after every element whose key is `≤` its own. -/
def insertTok (x : PToken) : List PToken → List PToken
  | [] => [x]
  | y :: t => if tokKeyLE y x then y :: insertTok x t else x :: y :: t

/-- `sorted(words, key=lambda x: (round(x["top"]/5)*5, x["x0"]))`. -/
def pySortTokens (l : List PToken) : List PToken :=
  l.foldl (fun acc x => insertTok x acc) []

/-- One loop iteration of `words_to_text`: state is
`(lines, current_line, current_y)`. -/
def wttStep (st : List String × List String × Option Int) (w : PToken) :
    List String × List String × Option Int :=
  let y := band w
  match st with
  | (lines, cur, curY) =>
      if (match curY with | some yp => decide (y ≠ yp) | none => false) then
        (lines ++ [String.intercalate " " cur], [w.text], some y)
      else (lines, cur ++ [w.text], some y)

/-- `words_to_text` from `app.py`: group consecutive tokens by quantized
band into space-joined lines, newline-joined. -/
def words_to_text (word_list : List PToken) : String :=
  match word_list with
  | [] => ""
  | _ =>
      let r := word_list.foldl wttStep ([], [], none)
      let lines := if r.2.1.isEmpty then r.1 else r.1 ++ [String.intercalate " " r.2.1]
      String.intercalate "\n" lines

/-- A page as `extract_text_from_pdf` consumes it: width, positioned word
tokens, and the plain-text fallback of `page.extract_text()` (`""` models a
falsy — empty or `None` — fallback). -/
structure PageData where
  width : ℚ
  words : List PToken
  fallback : String
  deriving Repr

/-- The per-page body of `extract_text_from_pdf`; `none` means the page
contributes nothing to `all_text`. -/
def processPage (page : PageData) : Option String :=
  if page.words.isEmpty then
    if page.fallback ≠ "" then some page.fallback else none
  else
    let mid := page.width * (35 / 100 : ℚ)
    let left_words := pySortTokens (page.words.filter (fun x => decide (x.x0 < mid)))
    let right_words := pySortTokens (page.words.filter (fun x => decide (x.x0 ≥ mid)))
    let left_text := words_to_text left_words
    let right_text := words_to_text right_words
    let combined :=
      (if pyStrip left_text ≠ "" then "=== SIDEBAR ===\n" ++ left_text ++ "\n\n" else "")
      ++ (if pyStrip right_text ≠ "" then "=== MAIN CONTENT ===\n" ++ right_text else "")
    some combined

/-- `extract_text_from_pdf` from `app.py` over the page data the external
layout collaborator supplies: per-page blocks joined by a blank line. -/
def extract_text_from_pdf (pages : List PageData) : String :=
  String.intercalate "\n\n" (pages.filterMap processPage)

/-! ## Observers and concrete inputs used by the claims -/

/-- Is the value a JSON string? -/
def isStrV : JValue → Bool
  | .str _ => true
  | _ => false

/-- Is the value a JSON boolean? -/
def isBoolV : JValue → Bool
  | .bool _ => true
  | _ => false

/-- Are all values in the list JSON strings? -/
def allStr (l : List JValue) : Bool :=
  l.all isStrV

/-- The top-level Resume Record fields of §3. -/
def requiredKeys : List String :=
  ["name", "title", "summary", "contact", "languages", "certifications",
   "skills", "experience", "education", "interests", "additional_info"]

/-- A resume payload exercising the normalizer's pass-through of present
but wrongly-typed values: non-string `name`, out-of-range `percent`,
non-string `level`, non-boolean `in_progress`, non-string `contact.age`. -/
def c2input : JValue :=
  .obj [("name", .int 5),
        ("contact", .obj [("age", .int 7)]),
        ("languages", .arr [.obj [("percent", .int 150), ("level", .int 3)]]),
        ("education", .arr [.obj [("in_progress", .str "yes")]])]

/-- The final-score formula as the spec's words state it (§4.3 steps 6–7):
`floor(100 * score / total_weight)` in exact arithmetic, then the +10 bonus
capped at 100.  Defined for refinement comparison with the code's
`compute_ats_score`, whose division runs in IEEE doubles. -/
def specFloorScore (cv_text job_description : String) : Int :=
  let jd_keywords := extract_keywords job_description
  let cv_keywords := extract_keywords cv_text
  if jd_keywords.isEmpty then 0
  else
    let top_keywords := (sortDesc jd_keywords).take 20
    let r := atsLoop cv_keywords top_keywords
    let f0 : Int :=
      if 0 < r.2.1 then Int.fdiv (100 * (r.1 : Int)) (r.2.1 : Int) else 0
    if 0 < f0 then min 100 (f0 + 10) else f0

/-! # Theorems -/

/-! ## Association-list (Python dict) toolkit -/

theorem dget_dset_self (m : List (String × JValue)) (k : String) (v : JValue) :
    dget (dset m k v) k = some v := by
  induction m with
  | nil => simp [dget, dset]
  | cons h t ih =>
      obtain ⟨k', v'⟩ := h
      by_cases hk : k' = k
      · subst hk; simp [dget, dset]
      · simp [dget, dset, hk, ih]

theorem dget_dset_ne (m : List (String × JValue)) (k k' : String) (v : JValue)
    (h : k ≠ k') : dget (dset m k v) k' = dget m k' := by
  induction m with
  | nil => simp [dget, dset, h]
  | cons hd t ih =>
      obtain ⟨k'', v''⟩ := hd
      by_cases hk : k'' = k
      · subst hk; simp [dget, dset, h]
      · simp only [dset, if_neg hk, dget]
        by_cases hk' : k'' = k'
        · simp [hk']
        · simp [hk', ih]

theorem dset_self_of_dget {m : List (String × JValue)} {k : String}
    {v : JValue} (h : dget m k = some v) : dset m k v = m := by
  induction m with
  | nil => simp [dget] at h
  | cons hd t ih =>
      obtain ⟨k', v'⟩ := hd
      simp only [dget] at h
      simp only [dset]
      by_cases hk : k' = k
      · rw [if_pos hk] at h
        injection h with hv
        rw [if_pos hk, hk, hv]
      · rw [if_neg hk] at h
        rw [if_neg hk, ih h]

theorem dget_append_of_isSome {m : List (String × JValue)} {k : String}
    (e : List (String × JValue)) (h : (dget m k).isSome) :
    dget (m ++ e) k = dget m k := by
  induction m with
  | nil => simp [dget] at h
  | cons hd t ih =>
      obtain ⟨k', v'⟩ := hd
      by_cases hk : k' = k
      · simp [dget, hk]
      · simp only [dget, if_neg hk] at h ⊢
        exact ih h

theorem dget_append_of_none {m : List (String × JValue)} {k : String}
    (e : List (String × JValue)) (h : dget m k = none) :
    dget (m ++ e) k = dget e k := by
  induction m with
  | nil => simp
  | cons hd t ih =>
      obtain ⟨k', v'⟩ := hd
      by_cases hk : k' = k
      · simp [dget, hk] at h
      · simp only [dget, if_neg hk] at h ⊢
        exact ih h

theorem dget_dsetdefault_self (m : List (String × JValue)) (k : String)
    (v : JValue) : (dget (dsetdefault m k v) k).isSome := by
  unfold dsetdefault
  by_cases h : (dget m k).isSome
  · simp [h]
  · rw [if_neg h]
    rw [dget_append_of_none _ (by cases hd : dget m k <;> simp_all)]
    simp [dget]

theorem dget_dsetdefault_ne (m : List (String × JValue)) (k k' : String)
    (v : JValue) (h : k ≠ k') :
    dget (dsetdefault m k v) k' = dget m k' := by
  unfold dsetdefault
  by_cases hs : (dget m k).isSome
  · simp [hs]
  · rw [if_neg hs]
    by_cases h' : (dget m k').isSome
    · exact dget_append_of_isSome _ h'
    · rw [dget_append_of_none _ (by cases hd : dget m k' <;> simp_all)]
      simp [dget, h, Option.not_isSome_iff_eq_none.mp h']

theorem dsetdefault_of_isSome {m : List (String × JValue)} {k : String}
    (v : JValue) (h : (dget m k).isSome) : dsetdefault m k v = m := by
  simp [dsetdefault, h]

theorem isSome_dget_dsetdefault (m : List (String × JValue)) {k' : String}
    (k : String) (v : JValue) (h : (dget m k').isSome) :
    (dget (dsetdefault m k v) k').isSome := by
  by_cases hk : k = k'
  · subst hk; exact dget_dsetdefault_self m k v
  · rw [dget_dsetdefault_ne m k k' v hk]; exact h

theorem isSome_dget_dset (m : List (String × JValue)) {k' : String}
    (k : String) (v : JValue) (h : (dget m k').isSome) :
    (dget (dset m k v) k').isSome := by
  by_cases hk : k = k'
  · subst hk; simp [dget_dset_self]
  · rw [dget_dset_ne m k k' v hk]; exact h

/-! ## Concrete evaluation helpers for `rndHalfEven` and `band`
(ℚ does not reduce in the kernel through Mathlib instances, so concrete
values are established by `norm_num` through these characterizations). -/

theorem rndHalfEven_eq_low (f : ℤ) {m : ℚ} (h1 : (f : ℚ) ≤ m)
    (h2 : m < (f : ℚ) + 1 / 2) : rndHalfEven m = f := by
  have hfl : ⌊m⌋ = f := Int.floor_eq_iff.mpr ⟨h1, by linarith⟩
  unfold rndHalfEven
  rw [hfl, if_pos (by linarith)]

theorem rndHalfEven_eq_high (f : ℤ) {m : ℚ} (h1 : (f : ℚ) + 1 / 2 < m)
    (h2 : m < (f : ℚ) + 1) : rndHalfEven m = f + 1 := by
  have hfl : ⌊m⌋ = f := Int.floor_eq_iff.mpr ⟨by linarith, h2⟩
  unfold rndHalfEven
  rw [hfl, if_neg (by linarith), if_pos (by linarith)]

theorem band_top101 (s : String) (x : ℚ) : band ⟨s, x, 101⟩ = 100 := by
  unfold band
  rw [show rndHalfEven ((101 : ℚ) / 5) = 20 from
    rndHalfEven_eq_low 20 (by norm_num) (by norm_num)]
  decide

theorem band_top103 (s : String) (x : ℚ) : band ⟨s, x, 103⟩ = 105 := by
  unfold band
  rw [show rndHalfEven ((103 : ℚ) / 5) = 21 from
    rndHalfEven_eq_high 20 (by norm_num) (by norm_num)]
  decide

theorem band_top106 (s : String) (x : ℚ) : band ⟨s, x, 106⟩ = 105 := by
  unfold band
  rw [show rndHalfEven ((106 : ℚ) / 5) = 21 from
    rndHalfEven_eq_low 21 (by norm_num) (by norm_num)]
  decide

/-! ## C5 — quantized vertical bands for tops 101 / 103 / 106 -/

/-- C5 as stated is false on the code: `round(101/5)*5 = 100` but
`round(103/5)*5 = 105`, so tokens with `top` 101 and 103 fall in
*different* 5-unit bands and `words_to_text` places them on separate
lines, not one space-joined line. -/
theorem c5_counterexample :
    band ⟨"A", 0, 101⟩ ≠ band ⟨"B", 0, 103⟩ ∧
    words_to_text [⟨"A", 0, 101⟩, ⟨"B", 0, 103⟩] = "A\nB" := by
  constructor
  · rw [band_top101, band_top103]; decide
  · simp [words_to_text, wttStep, band_top101, band_top103]
    rfl

/-- C5 amended: tops 101 and 103 quantize to the distinct bands 100 and
105 and are placed on separate lines; tops 103 and 106 share band 105 and
are joined into one space-separated line; tops 101 and 106 fall in
different bands and are placed on separate lines. -/
theorem c5_amended :
    band ⟨"A", 0, 101⟩ = 100 ∧ band ⟨"B", 0, 103⟩ = 105 ∧
    band ⟨"C", 0, 106⟩ = 105 ∧
    words_to_text [⟨"A", 0, 101⟩, ⟨"B", 0, 103⟩] = "A\nB" ∧
    words_to_text [⟨"B", 0, 103⟩, ⟨"C", 0, 106⟩] = "B C" ∧
    words_to_text [⟨"A", 0, 101⟩, ⟨"C", 0, 106⟩] = "A\nC" := by
  refine ⟨band_top101 _ _, band_top103 _ _, band_top106 _ _, ?_, ?_, ?_⟩
  · simp [words_to_text, wttStep, band_top101, band_top103]
    rfl
  · simp [words_to_text, wttStep, band_top103, band_top106]
    rfl
  · simp [words_to_text, wttStep, band_top101, band_top106]
    rfl

/-! ## C8 — empty job-description keyword map -/

/-- C8: an empty job-description keyword map makes `compute_ats_score`
return the zero report at once; in particular an empty job description
does (the spec's `compute_score("", "anything")` lists the job description
first, which is `compute_ats_score` with `cv_text = "anything"`,
`job_description = ""`). -/
theorem c8_empty_jd :
    (∀ cv_text job_description : String,
        extract_keywords job_description = [] →
        compute_ats_score cv_text job_description =
          ⟨0, [], []⟩) ∧
    compute_ats_score "anything" "" = ⟨0, [], []⟩ := by
  constructor
  · intro cv jd h
    simp [compute_ats_score, h]
  · rfl

/-- Witness for C8 at a concrete input: the hypothesis
`extract_keywords "" = []` holds definitionally. -/
theorem c8_empty_jd_witness :
    compute_ats_score "resume words here" "" = ⟨0, [], []⟩ :=
  c8_empty_jd.1 "resume words here" "" rfl

/-! ## C6 — page-level sections of the extractor -/

theorem pySortTokens_nil : pySortTokens [] = [] := rfl

theorem words_to_text_nil : words_to_text [] = "" := rfl

theorem pyStrip_empty : pyStrip "" = "" := rfl

/-- C6: a page whose tokens all lie left of the `0.35 × width` boundary
yields only a `SIDEBAR` section; all right of it, only `MAIN CONTENT`; and
a page with no positioned tokens but a non-empty fallback yields exactly
that fallback.  (The sections require the reassembled text to be
non-blank, which holds for any real word tokens; the hypothesis states
it.) -/
theorem c6_page_sections (page : PageData) :
    (page.words ≠ [] →
      (∀ t ∈ page.words, t.x0 < page.width * (35 / 100)) →
      pyStrip (words_to_text (pySortTokens page.words)) ≠ "" →
      processPage page =
        some ("=== SIDEBAR ===\n" ++ words_to_text (pySortTokens page.words) ++ "\n\n")) ∧
    (page.words ≠ [] →
      (∀ t ∈ page.words, page.width * (35 / 100) ≤ t.x0) →
      pyStrip (words_to_text (pySortTokens page.words)) ≠ "" →
      processPage page =
        some ("=== MAIN CONTENT ===\n" ++ words_to_text (pySortTokens page.words))) ∧
    (page.words = [] → page.fallback ≠ "" → processPage page = some page.fallback) := by
  refine ⟨?_, ?_, ?_⟩
  · intro hne hall hstrip
    have hni : page.words.isEmpty = false := by
      cases hw : page.words with
      | nil => exact absurd hw hne
      | cons a t => rfl
    have hfl : page.words.filter
        (fun x => decide (x.x0 < page.width * (35 / 100))) = page.words :=
      List.filter_eq_self.mpr (fun a ha => by simpa using hall a ha)
    have hfr : page.words.filter
        (fun x => decide (x.x0 ≥ page.width * (35 / 100))) = [] :=
      List.filter_eq_nil_iff.mpr (fun a ha => by simpa using not_le.mpr (hall a ha))
    simp only [processPage, hni, Bool.false_eq_true, if_false, hfl, hfr,
      pySortTokens_nil, words_to_text_nil, pyStrip_empty]
    rw [if_pos hstrip, if_neg (by simp)]
    simp
  · intro hne hall hstrip
    have hni : page.words.isEmpty = false := by
      cases hw : page.words with
      | nil => exact absurd hw hne
      | cons a t => rfl
    have hfl : page.words.filter
        (fun x => decide (x.x0 < page.width * (35 / 100))) = [] :=
      List.filter_eq_nil_iff.mpr (fun a ha => by simpa using not_lt.mpr (hall a ha))
    have hfr : page.words.filter
        (fun x => decide (x.x0 ≥ page.width * (35 / 100))) = page.words :=
      List.filter_eq_self.mpr (fun a ha => by simpa using hall a ha)
    simp only [processPage, hni, Bool.false_eq_true, if_false, hfl, hfr,
      pySortTokens_nil, words_to_text_nil, pyStrip_empty]
    rw [if_neg (by simp), if_pos hstrip]
    simp
  · intro hw hfb
    simp [processPage, hw, hfb]

/-- Witness for C6 at three concrete pages: a page of one left token, a
page of one right token, and a token-free page with a fallback. -/
theorem c6_page_sections_witness :
    processPage ⟨100, [⟨"A", 10, 101⟩], ""⟩ = some "=== SIDEBAR ===\nA\n\n" ∧
    processPage ⟨100, [⟨"B", 50, 101⟩], ""⟩ = some "=== MAIN CONTENT ===\nB" ∧
    processPage ⟨100, [], "fallback text"⟩ = some "fallback text" := by
  refine ⟨?_, ?_, ?_⟩
  · exact (c6_page_sections ⟨100, [⟨"A", 10, 101⟩], ""⟩).1 (by simp)
      (by intro t ht; simp at ht; subst ht; norm_num) (by decide)
  · exact (c6_page_sections ⟨100, [⟨"B", 50, 101⟩], ""⟩).2.1 (by simp)
      (by intro t ht; simp at ht; subst ht; norm_num) (by decide)
  · exact (c6_page_sections ⟨100, [], "fallback text"⟩).2.2 rfl (by decide)

/-! ## C1 — the normalizer is total and fully populates the record -/

theorem dget_normObj_isSome (m : List (String × JValue)) :
    ∀ k ∈ requiredKeys, (dget (normObj m) k).isSome := by
  intro k hk
  simp only [requiredKeys] at hk
  fin_cases hk <;>
    simp +decide [normObj, stepScalars, stepContact, stepLanguages,
      stepCerts, stepSkills, stepExperience, stepEducation, stepInterests,
      stepAdditional, dget_dset_self, dget_dset_ne, dget_dsetdefault_self,
      dget_dsetdefault_ne]

/-- C1: `normalize_resume_data` is total on decoded JSON values (the Lean
model is a total function, with `Option`-free result), treats every
non-object top level as the empty object, and its result always contains
all eleven top-level Resume Record fields. -/
theorem c1_normalize_total (v : JValue) :
    (∃ m, normalize_resume_data v = .obj m ∧
      ∀ k ∈ requiredKeys, (dget m k).isSome) ∧
    (normalize_resume_data .null = normalize_resume_data (.obj []) ∧
     (∀ b, normalize_resume_data (.bool b) = normalize_resume_data (.obj [])) ∧
     (∀ n, normalize_resume_data (.int n) = normalize_resume_data (.obj [])) ∧
     (∀ q, normalize_resume_data (.float q) = normalize_resume_data (.obj [])) ∧
     (∀ s, normalize_resume_data (.str s) = normalize_resume_data (.obj [])) ∧
     (∀ l, normalize_resume_data (.arr l) = normalize_resume_data (.obj []))) :=
  ⟨⟨normObj (asObj v), rfl, dget_normObj_isSome (asObj v)⟩,
    rfl, fun _ => rfl, fun _ => rfl, fun _ => rfl, fun _ => rfl, fun _ => rfl⟩

/-! ## C2 — field shapes after normalization -/

theorem allStr_strListOf (l : List JValue) : allStr (strListOf l) = true := by
  induction l with
  | nil => rfl
  | cons h t ih =>
      simp only [strListOf, List.map_cons, allStr, List.all_cons, isStrV,
        Bool.true_and]
      simpa [strListOf, allStr] using ih

theorem normContact_keys (c : List (String × JValue)) :
    ∀ k ∈ ["email", "phone", "location", "age"],
      (dget (normContact c) k).isSome := by
  intro k hk
  fin_cases hk <;>
    simp +decide [normContact, dget_dsetdefault_self, dget_dsetdefault_ne]

theorem normLangEntry_shape {a e' : JValue} (h : normLangEntry a = some e') :
    ∃ em, e' = .obj em ∧ (dget em "name").isSome ∧ (dget em "level").isSome ∧
      ∃ n : Int, dget em "percent" = some (.int n) := by
  cases a with
  | obj m =>
      simp only [normLangEntry] at h
      set m1 := dsetdefault (dsetdefault (dsetdefault m
        "name" (.str "Unknown")) "level" (.str "Basic")) "percent" (.int 50) with hm1
      have hname : (dget m1 "name").isSome := by
        rw [hm1, dget_dsetdefault_ne _ "percent" "name" _ (by decide),
          dget_dsetdefault_ne _ "level" "name" _ (by decide)]
        exact dget_dsetdefault_self _ _ _
      have hlevel : (dget m1 "level").isSome := by
        rw [hm1, dget_dsetdefault_ne _ "percent" "level" _ (by decide)]
        exact dget_dsetdefault_self _ _ _
      cases hp : pyInt (dgetD m1 "percent" (.int 50)) with
      | some n =>
          rw [hp] at h
          have h2 : JValue.obj (dset m1 "percent" (.int n)) = e' :=
            Option.some.inj h
          subst h2
          exact ⟨_, rfl, isSome_dget_dset _ _ _ hname,
            isSome_dget_dset _ _ _ hlevel, n, dget_dset_self _ _ _⟩
      | none =>
          rw [hp] at h
          have h2 : JValue.obj (dset m1 "percent" (.int 50)) = e' :=
            Option.some.inj h
          subst h2
          exact ⟨_, rfl, isSome_dget_dset _ _ _ hname,
            isSome_dget_dset _ _ _ hlevel, 50, dget_dset_self _ _ _⟩
  | str s =>
      simp only [normLangEntry] at h
      have h2 : JValue.obj [("name", .str s), ("level", .str "Proficient"),
          ("percent", .int 70)] = e' := Option.some.inj h
      subst h2
      exact ⟨_, rfl, by rfl, by rfl, 70, by rfl⟩
  | null => simp [normLangEntry] at h
  | bool b => simp [normLangEntry] at h
  | int n => simp [normLangEntry] at h
  | float q => simp [normLangEntry] at h
  | arr l => simp [normLangEntry] at h

theorem normSkillEntry_shape {a e' : JValue} (h : normSkillEntry a = some e') :
    ∃ cat items, e' = .obj [("category", .str cat), ("items", .arr items)] ∧
      allStr items = true := by
  cases a with
  | obj m =>
      simp only [normSkillEntry] at h
      have h2 := Option.some.inj h
      subst h2
      exact ⟨_, _, rfl, allStr_strListOf _⟩
  | str s =>
      simp only [normSkillEntry] at h
      have h2 := Option.some.inj h
      subst h2
      exact ⟨"Skills", [.str s], rfl, by rfl⟩
  | null => simp [normSkillEntry] at h
  | bool b => simp [normSkillEntry] at h
  | int n => simp [normSkillEntry] at h
  | float q => simp [normSkillEntry] at h
  | arr l => simp [normSkillEntry] at h

theorem normExpEntry_shape {a e' : JValue} (h : normExpEntry a = some e') :
    ∃ em, e' = .obj em ∧
      (∀ k ∈ ["title", "company", "date", "location"], (dget em k).isSome) ∧
      ∃ bl, dget em "bullets" = some (.arr bl) ∧ allStr bl = true := by
  cases a with
  | obj m =>
      simp only [normExpEntry] at h
      set m1 := dsetdefault (dsetdefault (dsetdefault (dsetdefault m
        "title" (.str "")) "company" (.str "")) "date" (.str ""))
        "location" (.str "") with hm1
      have h2 := Option.some.inj h
      subst h2
      refine ⟨_, rfl, ?_, _, dget_dset_self _ _ _, allStr_strListOf _⟩
      intro k hk
      apply isSome_dget_dset
      fin_cases hk <;> rw [hm1]
      · rw [dget_dsetdefault_ne _ "location" "title" _ (by decide),
          dget_dsetdefault_ne _ "date" "title" _ (by decide),
          dget_dsetdefault_ne _ "company" "title" _ (by decide)]
        exact dget_dsetdefault_self _ _ _
      · rw [dget_dsetdefault_ne _ "location" "company" _ (by decide),
          dget_dsetdefault_ne _ "date" "company" _ (by decide)]
        exact dget_dsetdefault_self _ _ _
      · rw [dget_dsetdefault_ne _ "location" "date" _ (by decide)]
        exact dget_dsetdefault_self _ _ _
      · exact dget_dsetdefault_self _ _ _
  | str s => simp [normExpEntry] at h
  | null => simp [normExpEntry] at h
  | bool b => simp [normExpEntry] at h
  | int n => simp [normExpEntry] at h
  | float q => simp [normExpEntry] at h
  | arr l => simp [normExpEntry] at h

theorem normEduEntry_shape {a e' : JValue} (h : normEduEntry a = some e') :
    ∃ em, e' = .obj em ∧
      ∀ k ∈ ["degree", "school", "year", "details", "in_progress"],
        (dget em k).isSome := by
  cases a with
  | obj m =>
      simp only [normEduEntry] at h
      have h2 := Option.some.inj h
      subst h2
      refine ⟨_, rfl, ?_⟩
      intro k hk
      fin_cases hk
      · rw [dget_dsetdefault_ne _ "in_progress" "degree" _ (by decide),
          dget_dsetdefault_ne _ "details" "degree" _ (by decide),
          dget_dsetdefault_ne _ "year" "degree" _ (by decide),
          dget_dsetdefault_ne _ "school" "degree" _ (by decide)]
        exact dget_dsetdefault_self _ _ _
      · rw [dget_dsetdefault_ne _ "in_progress" "school" _ (by decide),
          dget_dsetdefault_ne _ "details" "school" _ (by decide),
          dget_dsetdefault_ne _ "year" "school" _ (by decide)]
        exact dget_dsetdefault_self _ _ _
      · rw [dget_dsetdefault_ne _ "in_progress" "year" _ (by decide),
          dget_dsetdefault_ne _ "details" "year" _ (by decide)]
        exact dget_dsetdefault_self _ _ _
      · rw [dget_dsetdefault_ne _ "in_progress" "details" _ (by decide)]
        exact dget_dsetdefault_self _ _ _
      · exact dget_dsetdefault_self _ _ _
  | str s => simp [normEduEntry] at h
  | null => simp [normEduEntry] at h
  | bool b => simp [normEduEntry] at h
  | int n => simp [normEduEntry] at h
  | float q => simp [normEduEntry] at h
  | arr l => simp [normEduEntry] at h

theorem normObj_contact_val (m : List (String × JValue)) :
    ∃ c0, dget (normObj m) "contact" = some (.obj (normContact c0)) := by
  refine ⟨asObj (dgetD (stepScalars m) "contact" (.obj [])), ?_⟩
  simp +decide [normObj, stepAdditional, stepInterests, stepEducation,
    stepExperience, stepSkills, stepCerts, stepLanguages, stepContact,
    dget_dset_ne, dget_dset_self]

theorem normObj_languages_val (m : List (String × JValue)) :
    ∃ l0 : List JValue,
      dget (normObj m) "languages" = some (.arr (l0.filterMap normLangEntry)) := by
  refine ⟨asArr (dgetD (stepContact (stepScalars m)) "languages" (.arr [])), ?_⟩
  simp +decide [normObj, stepAdditional, stepInterests, stepEducation,
    stepExperience, stepSkills, stepCerts, stepLanguages,
    dget_dset_ne, dget_dset_self]

theorem normObj_certifications_val (m : List (String × JValue)) :
    ∃ l0 : List JValue,
      dget (normObj m) "certifications" = some (.arr (strListOf l0)) := by
  refine ⟨coerceToList (dgetD (stepLanguages (stepContact (stepScalars m)))
    "certifications" (.arr [])), ?_⟩
  simp +decide [normObj, stepAdditional, stepInterests, stepEducation,
    stepExperience, stepSkills, stepCerts,
    dget_dset_ne, dget_dset_self]

theorem normObj_skills_val (m : List (String × JValue)) :
    ∃ l0 : List JValue,
      dget (normObj m) "skills" = some (.arr (l0.filterMap normSkillEntry)) := by
  refine ⟨skillsRaw (dgetD (stepCerts (stepLanguages (stepContact
    (stepScalars m)))) "skills" (.arr [])), ?_⟩
  simp +decide [normObj, stepAdditional, stepInterests, stepEducation,
    stepExperience, stepSkills,
    dget_dset_ne, dget_dset_self]

theorem normObj_experience_val (m : List (String × JValue)) :
    ∃ l0 : List JValue,
      dget (normObj m) "experience" = some (.arr (l0.filterMap normExpEntry)) := by
  refine ⟨asArr (dgetD (stepSkills (stepCerts (stepLanguages (stepContact
    (stepScalars m))))) "experience" (.arr [])), ?_⟩
  simp +decide [normObj, stepAdditional, stepInterests, stepEducation,
    stepExperience,
    dget_dset_ne, dget_dset_self]

theorem normObj_education_val (m : List (String × JValue)) :
    ∃ l0 : List JValue,
      dget (normObj m) "education" = some (.arr (l0.filterMap normEduEntry)) := by
  refine ⟨asArr (dgetD (stepExperience (stepSkills (stepCerts (stepLanguages
    (stepContact (stepScalars m)))))) "education" (.arr [])), ?_⟩
  simp +decide [normObj, stepAdditional, stepInterests, stepEducation,
    dget_dset_ne, dget_dset_self]

theorem normObj_interests_val (m : List (String × JValue)) :
    ∃ l0 : List JValue,
      dget (normObj m) "interests" = some (.arr (strListOf l0)) := by
  refine ⟨coerceToList (dgetD (stepEducation (stepExperience (stepSkills
    (stepCerts (stepLanguages (stepContact (stepScalars m)))))))
    "interests" (.arr [])), ?_⟩
  simp +decide [normObj, stepAdditional, stepInterests,
    dget_dset_ne, dget_dset_self]

theorem normObj_additional_val (m : List (String × JValue)) :
    ∃ l0 : List JValue,
      dget (normObj m) "additional_info" = some (.arr (strListOf l0)) := by
  refine ⟨coerceToList (dgetD (stepInterests (stepEducation (stepExperience
    (stepSkills (stepCerts (stepLanguages (stepContact (stepScalars m))))))))
    "additional_info" (.arr [])), ?_⟩
  simp +decide [normObj, stepAdditional,
    dget_dset_ne, dget_dset_self]

theorem dget_dsetdefault_of_none {m : List (String × JValue)} {k : String}
    (v : JValue) (h : dget m k = none) :
    dget (dsetdefault m k v) k = some v := by
  unfold dsetdefault
  rw [if_neg (by simp [h]), dget_append_of_none _ h]
  simp [dget]

theorem dget_stepScalars_name {m : List (String × JValue)}
    (h : dget m "name" = none) :
    dget (stepScalars m) "name" = some (.str "Candidate") := by
  unfold stepScalars
  rw [dget_dsetdefault_ne _ "summary" "name" _ (by decide),
    dget_dsetdefault_ne _ "title" "name" _ (by decide),
    dget_dsetdefault_of_none _ h]

theorem dget_stepScalars_title {m : List (String × JValue)}
    (h : dget m "title" = none) :
    dget (stepScalars m) "title" = some (.str "Professional") := by
  unfold stepScalars
  rw [dget_dsetdefault_ne _ "summary" "title" _ (by decide)]
  by_cases hn : (dget m "name").isSome
  · rw [show dsetdefault m "name" (.str "Candidate") = m from
      dsetdefault_of_isSome _ hn, dget_dsetdefault_of_none _ h]
  · have hmn : dget m "name" = none := by
      cases hd : dget m "name" <;> simp_all
    have h1 : dget (dsetdefault m "name" (.str "Candidate")) "title" = none := by
      rw [dget_dsetdefault_ne _ "name" "title" _ (by decide)]; exact h
    rw [dget_dsetdefault_of_none _ h1]

theorem dget_stepScalars_summary {m : List (String × JValue)}
    (h : dget m "summary" = none) :
    dget (stepScalars m) "summary" = some (.str "") := by
  unfold stepScalars
  have h1 : dget (dsetdefault (dsetdefault m "name" (.str "Candidate"))
      "title" (.str "Professional")) "summary" = none := by
    rw [dget_dsetdefault_ne _ "title" "summary" _ (by decide),
      dget_dsetdefault_ne _ "name" "summary" _ (by decide)]
    exact h
  rw [dget_dsetdefault_of_none _ h1]

theorem normObj_name_default {m : List (String × JValue)}
    (h : dget m "name" = none) :
    dget (normObj m) "name" = some (.str "Candidate") := by
  unfold normObj stepAdditional stepInterests stepEducation stepExperience
    stepSkills stepCerts stepLanguages stepContact
  rw [dget_dset_ne _ "additional_info" "name" _ (by decide),
    dget_dset_ne _ "interests" "name" _ (by decide),
    dget_dset_ne _ "education" "name" _ (by decide),
    dget_dset_ne _ "experience" "name" _ (by decide),
    dget_dset_ne _ "skills" "name" _ (by decide),
    dget_dset_ne _ "certifications" "name" _ (by decide),
    dget_dset_ne _ "languages" "name" _ (by decide),
    dget_dset_ne _ "contact" "name" _ (by decide),
    dget_stepScalars_name h]

theorem normObj_title_default {m : List (String × JValue)}
    (h : dget m "title" = none) :
    dget (normObj m) "title" = some (.str "Professional") := by
  unfold normObj stepAdditional stepInterests stepEducation stepExperience
    stepSkills stepCerts stepLanguages stepContact
  rw [dget_dset_ne _ "additional_info" "title" _ (by decide),
    dget_dset_ne _ "interests" "title" _ (by decide),
    dget_dset_ne _ "education" "title" _ (by decide),
    dget_dset_ne _ "experience" "title" _ (by decide),
    dget_dset_ne _ "skills" "title" _ (by decide),
    dget_dset_ne _ "certifications" "title" _ (by decide),
    dget_dset_ne _ "languages" "title" _ (by decide),
    dget_dset_ne _ "contact" "title" _ (by decide),
    dget_stepScalars_title h]

theorem normObj_summary_default {m : List (String × JValue)}
    (h : dget m "summary" = none) :
    dget (normObj m) "summary" = some (.str "") := by
  unfold normObj stepAdditional stepInterests stepEducation stepExperience
    stepSkills stepCerts stepLanguages stepContact
  rw [dget_dset_ne _ "additional_info" "summary" _ (by decide),
    dget_dset_ne _ "interests" "summary" _ (by decide),
    dget_dset_ne _ "education" "summary" _ (by decide),
    dget_dset_ne _ "experience" "summary" _ (by decide),
    dget_dset_ne _ "skills" "summary" _ (by decide),
    dget_dset_ne _ "certifications" "summary" _ (by decide),
    dget_dset_ne _ "languages" "summary" _ (by decide),
    dget_dset_ne _ "contact" "summary" _ (by decide),
    dget_stepScalars_summary h]

/-- C2 as stated is false on the code: present values are kept as-is, so a
non-string `name`, an out-of-range `percent` (`150`), a non-string `level`
and a non-boolean `in_progress` all survive normalization. -/
theorem c2_counterexample :
    dget (asObj (normalize_resume_data c2input)) "name" = some (.int 5) ∧
    isStrV (.int 5) = false ∧
    dget (asObj (normalize_resume_data c2input)) "languages" =
      some (.arr [.obj [("percent", .int 150), ("level", .int 3),
        ("name", .str "Unknown")]]) ∧
    ¬ ((150 : Int) ≤ 100) ∧
    dget (asObj (normalize_resume_data c2input)) "education" =
      some (.arr [.obj [("in_progress", .str "yes"), ("degree", .str ""),
        ("school", .str ""), ("year", .str ""), ("details", .str "")]]) ∧
    isBoolV (.str "yes") = false := by
  exact ⟨rfl, rfl, rfl, by decide, rfl, rfl⟩

/-- C2 amended: after `normalize_resume_data`, every top-level field is
present; `contact` is an object containing the four contact keys;
`languages` entries are objects with `name` and `level` present and an
integer `percent` (not clamped to 0–100); `certifications`, `interests`
and `additional_info` are lists of strings; `skills` entries are
two-field objects with a string category and a string list; `experience`
entries are objects with the four scalar keys and a string `bullets` list;
`education` entries are objects with all five keys present; and `name`,
`title`, `summary` receive their string defaults when absent from the
input (present values of any type are kept as-is). -/
theorem c2_amended (v : JValue) :
    (∀ k ∈ requiredKeys, (dget (normObj (asObj v)) k).isSome) ∧
    (∃ c, dget (normObj (asObj v)) "contact" = some (.obj c) ∧
      ∀ k ∈ ["email", "phone", "location", "age"], (dget c k).isSome) ∧
    (∃ L, dget (normObj (asObj v)) "languages" = some (.arr L) ∧
      ∀ e ∈ L, ∃ em, e = .obj em ∧ (dget em "name").isSome ∧
        (dget em "level").isSome ∧ ∃ n : Int, dget em "percent" = some (.int n)) ∧
    (∃ C, dget (normObj (asObj v)) "certifications" = some (.arr C) ∧
      allStr C = true) ∧
    (∃ S, dget (normObj (asObj v)) "skills" = some (.arr S) ∧
      ∀ e ∈ S, ∃ cat items, e = .obj [("category", .str cat),
        ("items", .arr items)] ∧ allStr items = true) ∧
    (∃ E, dget (normObj (asObj v)) "experience" = some (.arr E) ∧
      ∀ e ∈ E, ∃ em, e = .obj em ∧
        (∀ k ∈ ["title", "company", "date", "location"], (dget em k).isSome) ∧
        ∃ bl, dget em "bullets" = some (.arr bl) ∧ allStr bl = true) ∧
    (∃ D, dget (normObj (asObj v)) "education" = some (.arr D) ∧
      ∀ e ∈ D, ∃ em, e = .obj em ∧
        ∀ k ∈ ["degree", "school", "year", "details", "in_progress"],
          (dget em k).isSome) ∧
    (∃ I, dget (normObj (asObj v)) "interests" = some (.arr I) ∧
      allStr I = true) ∧
    (∃ A, dget (normObj (asObj v)) "additional_info" = some (.arr A) ∧
      allStr A = true) ∧
    (dget (asObj v) "name" = none →
      dget (normObj (asObj v)) "name" = some (.str "Candidate")) ∧
    (dget (asObj v) "title" = none →
      dget (normObj (asObj v)) "title" = some (.str "Professional")) ∧
    (dget (asObj v) "summary" = none →
      dget (normObj (asObj v)) "summary" = some (.str "")) := by
  refine ⟨dget_normObj_isSome _, ?_, ?_, ?_, ?_, ?_, ?_, ?_, ?_,
    normObj_name_default, normObj_title_default, normObj_summary_default⟩
  · obtain ⟨c0, hc⟩ := normObj_contact_val (asObj v)
    exact ⟨normContact c0, hc, normContact_keys c0⟩
  · obtain ⟨l0, hl⟩ := normObj_languages_val (asObj v)
    refine ⟨_, hl, ?_⟩
    intro e he
    obtain ⟨a, _, hfa⟩ := List.mem_filterMap.mp he
    exact normLangEntry_shape hfa
  · obtain ⟨l0, hl⟩ := normObj_certifications_val (asObj v)
    exact ⟨_, hl, allStr_strListOf _⟩
  · obtain ⟨l0, hl⟩ := normObj_skills_val (asObj v)
    refine ⟨_, hl, ?_⟩
    intro e he
    obtain ⟨a, _, hfa⟩ := List.mem_filterMap.mp he
    exact normSkillEntry_shape hfa
  · obtain ⟨l0, hl⟩ := normObj_experience_val (asObj v)
    refine ⟨_, hl, ?_⟩
    intro e he
    obtain ⟨a, _, hfa⟩ := List.mem_filterMap.mp he
    exact normExpEntry_shape hfa
  · obtain ⟨l0, hl⟩ := normObj_education_val (asObj v)
    refine ⟨_, hl, ?_⟩
    intro e he
    obtain ⟨a, _, hfa⟩ := List.mem_filterMap.mp he
    exact normEduEntry_shape hfa
  · obtain ⟨l0, hl⟩ := normObj_interests_val (asObj v)
    exact ⟨_, hl, allStr_strListOf _⟩
  · obtain ⟨l0, hl⟩ := normObj_additional_val (asObj v)
    exact ⟨_, hl, allStr_strListOf _⟩

/-- Witness for C2's amended theorem with the defaulting hypotheses
discharged at the empty input. -/
theorem c2_amended_witness :
    dget (normObj (asObj (.obj []))) "name" = some (.str "Candidate") ∧
    dget (normObj (asObj (.obj []))) "title" = some (.str "Professional") ∧
    dget (normObj (asObj (.obj []))) "summary" = some (.str "") :=
  ⟨(c2_amended (.obj [])).2.2.2.2.2.2.2.2.2.1 rfl,
   (c2_amended (.obj [])).2.2.2.2.2.2.2.2.2.2.1 rfl,
   (c2_amended (.obj [])).2.2.2.2.2.2.2.2.2.2.2 rfl⟩

/-! ## C4 — idempotence of the normalizer -/

theorem strListOf_strListOf (l : List JValue) :
    strListOf (strListOf l) = strListOf l := by
  induction l with
  | nil => rfl
  | cons h t ih =>
      show JValue.str (pyStr (JValue.str (pyStr h))) :: strListOf (strListOf t) =
        JValue.str (pyStr h) :: strListOf t
      rw [ih, show pyStr (JValue.str (pyStr h)) = pyStr h from rfl]

theorem filterMap_idem {f : JValue → Option JValue}
    (hf : ∀ a b, f a = some b → f b = some b) (l : List JValue) :
    (l.filterMap f).filterMap f = l.filterMap f := by
  induction l with
  | nil => rfl
  | cons a t ih =>
      cases hfa : f a with
      | none => simp [List.filterMap_cons, hfa, ih]
      | some b => simp [List.filterMap_cons, hfa, hf a b hfa, ih]

theorem normContact_fix {c : List (String × JValue)}
    (he : (dget c "email").isSome) (hp : (dget c "phone").isSome)
    (hl : (dget c "location").isSome) (ha : (dget c "age").isSome) :
    normContact c = c := by
  unfold normContact
  rw [dsetdefault_of_isSome _ he, dsetdefault_of_isSome _ hp,
    dsetdefault_of_isSome _ hl, dsetdefault_of_isSome _ ha]

theorem normContact_idem (c : List (String × JValue)) :
    normContact (normContact c) = normContact c := by
  have hk := normContact_keys c
  exact normContact_fix (hk "email" (by simp)) (hk "phone" (by simp))
    (hk "location" (by simp)) (hk "age" (by simp))

theorem normLangEntry_stable {a b : JValue} (h : normLangEntry a = some b) :
    normLangEntry b = some b := by
  cases a with
  | obj m =>
      simp only [normLangEntry] at h
      set m1 := dsetdefault (dsetdefault (dsetdefault m
        "name" (.str "Unknown")) "level" (.str "Basic")) "percent" (.int 50) with hm1
      have hname : (dget m1 "name").isSome := by
        rw [hm1, dget_dsetdefault_ne _ "percent" "name" _ (by decide),
          dget_dsetdefault_ne _ "level" "name" _ (by decide)]
        exact dget_dsetdefault_self _ _ _
      have hlevel : (dget m1 "level").isSome := by
        rw [hm1, dget_dsetdefault_ne _ "percent" "level" _ (by decide)]
        exact dget_dsetdefault_self _ _ _
      have main : ∀ x : Int,
          normLangEntry (.obj (dset m1 "percent" (.int x))) =
            some (.obj (dset m1 "percent" (.int x))) := by
        intro x
        have hper : dget (dset m1 "percent" (.int x)) "percent" =
            some (.int x) := dget_dset_self _ _ _
        simp only [normLangEntry]
        rw [dsetdefault_of_isSome _ (isSome_dget_dset _ _ _ hname),
          dsetdefault_of_isSome _ (isSome_dget_dset _ _ _ hlevel),
          dsetdefault_of_isSome _ (by simp [hper]),
          show dgetD (dset m1 "percent" (.int x)) "percent" (.int 50) = .int x
            from by simp [dgetD, hper]]
        simp only [pyInt]
        rw [dset_self_of_dget hper]
      cases hp : pyInt (dgetD m1 "percent" (.int 50)) with
      | some n =>
          rw [hp] at h
          have h2 := Option.some.inj h
          subst h2
          exact main n
      | none =>
          rw [hp] at h
          have h2 := Option.some.inj h
          subst h2
          exact main 50
  | str s =>
      simp only [normLangEntry] at h
      have h2 := Option.some.inj h
      subst h2
      rfl
  | null => simp [normLangEntry] at h
  | bool b => simp [normLangEntry] at h
  | int n => simp [normLangEntry] at h
  | float q => simp [normLangEntry] at h
  | arr l => simp [normLangEntry] at h

theorem normSkillEntry_stable {a b : JValue} (h : normSkillEntry a = some b) :
    normSkillEntry b = some b := by
  cases a with
  | obj m =>
      simp only [normSkillEntry] at h
      have h2 := Option.some.inj h
      subst h2
      simp +decide [normSkillEntry, dgetD, dget, pyStr, coerceToList,
        strListOf_strListOf]
  | str s =>
      simp only [normSkillEntry] at h
      have h2 := Option.some.inj h
      subst h2
      rfl
  | null => simp [normSkillEntry] at h
  | bool b => simp [normSkillEntry] at h
  | int n => simp [normSkillEntry] at h
  | float q => simp [normSkillEntry] at h
  | arr l => simp [normSkillEntry] at h

theorem normExpEntry_stable {a b : JValue} (h : normExpEntry a = some b) :
    normExpEntry b = some b := by
  cases a with
  | obj m =>
      simp only [normExpEntry] at h
      set m1 := dsetdefault (dsetdefault (dsetdefault (dsetdefault m
        "title" (.str "")) "company" (.str "")) "date" (.str ""))
        "location" (.str "") with hm1
      have htitle : (dget m1 "title").isSome := by
        rw [hm1, dget_dsetdefault_ne _ "location" "title" _ (by decide),
          dget_dsetdefault_ne _ "date" "title" _ (by decide),
          dget_dsetdefault_ne _ "company" "title" _ (by decide)]
        exact dget_dsetdefault_self _ _ _
      have hcompany : (dget m1 "company").isSome := by
        rw [hm1, dget_dsetdefault_ne _ "location" "company" _ (by decide),
          dget_dsetdefault_ne _ "date" "company" _ (by decide)]
        exact dget_dsetdefault_self _ _ _
      have hdate : (dget m1 "date").isSome := by
        rw [hm1, dget_dsetdefault_ne _ "location" "date" _ (by decide)]
        exact dget_dsetdefault_self _ _ _
      have hloc : (dget m1 "location").isSome := dget_dsetdefault_self _ _ _
      set bl := strListOf (coerceToList (dgetD m1 "bullets" (.arr []))) with hbl
      have h2 := Option.some.inj h
      subst h2
      have hbul : dget (dset m1 "bullets" (.arr bl)) "bullets" =
          some (.arr bl) := dget_dset_self _ _ _
      have hsl : strListOf bl = bl := by rw [hbl]; exact strListOf_strListOf _
      simp only [normExpEntry]
      rw [dsetdefault_of_isSome _ (isSome_dget_dset _ _ _ htitle),
        dsetdefault_of_isSome _ (isSome_dget_dset _ _ _ hcompany),
        dsetdefault_of_isSome _ (isSome_dget_dset _ _ _ hdate),
        dsetdefault_of_isSome _ (isSome_dget_dset _ _ _ hloc),
        show dgetD (dset m1 "bullets" (.arr bl)) "bullets" (.arr []) = .arr bl
          from by simp [dgetD, hbul]]
      simp only [coerceToList]
      rw [hsl, dset_self_of_dget hbul]
  | str s => simp [normExpEntry] at h
  | null => simp [normExpEntry] at h
  | bool b => simp [normExpEntry] at h
  | int n => simp [normExpEntry] at h
  | float q => simp [normExpEntry] at h
  | arr l => simp [normExpEntry] at h

theorem normEduEntry_stable {a b : JValue} (h : normEduEntry a = some b) :
    normEduEntry b = some b := by
  cases a with
  | obj m =>
      simp only [normEduEntry] at h
      set em := dsetdefault (dsetdefault (dsetdefault (dsetdefault
        (dsetdefault m "degree" (.str "")) "school" (.str ""))
        "year" (.str "")) "details" (.str "")) "in_progress" (.bool false)
        with hem
      have hdeg : (dget em "degree").isSome := by
        rw [hem, dget_dsetdefault_ne _ "in_progress" "degree" _ (by decide),
          dget_dsetdefault_ne _ "details" "degree" _ (by decide),
          dget_dsetdefault_ne _ "year" "degree" _ (by decide),
          dget_dsetdefault_ne _ "school" "degree" _ (by decide)]
        exact dget_dsetdefault_self _ _ _
      have hsch : (dget em "school").isSome := by
        rw [hem, dget_dsetdefault_ne _ "in_progress" "school" _ (by decide),
          dget_dsetdefault_ne _ "details" "school" _ (by decide),
          dget_dsetdefault_ne _ "year" "school" _ (by decide)]
        exact dget_dsetdefault_self _ _ _
      have hyr : (dget em "year").isSome := by
        rw [hem, dget_dsetdefault_ne _ "in_progress" "year" _ (by decide),
          dget_dsetdefault_ne _ "details" "year" _ (by decide)]
        exact dget_dsetdefault_self _ _ _
      have hdet : (dget em "details").isSome := by
        rw [hem, dget_dsetdefault_ne _ "in_progress" "details" _ (by decide)]
        exact dget_dsetdefault_self _ _ _
      have hip : (dget em "in_progress").isSome := dget_dsetdefault_self _ _ _
      have h2 := Option.some.inj h
      subst h2
      simp only [normEduEntry]
      rw [dsetdefault_of_isSome _ hdeg, dsetdefault_of_isSome _ hsch,
        dsetdefault_of_isSome _ hyr, dsetdefault_of_isSome _ hdet,
        dsetdefault_of_isSome _ hip]
  | str s => simp [normEduEntry] at h
  | null => simp [normEduEntry] at h
  | bool b => simp [normEduEntry] at h
  | int n => simp [normEduEntry] at h
  | float q => simp [normEduEntry] at h
  | arr l => simp [normEduEntry] at h

theorem stepScalars_fix (m : List (String × JValue)) :
    stepScalars (normObj m) = normObj m := by
  have hk := dget_normObj_isSome m
  unfold stepScalars
  rw [dsetdefault_of_isSome _ (hk "name" (by simp [requiredKeys])),
    dsetdefault_of_isSome _ (hk "title" (by simp [requiredKeys])),
    dsetdefault_of_isSome _ (hk "summary" (by simp [requiredKeys]))]

theorem stepContact_fix (m : List (String × JValue)) :
    stepContact (normObj m) = normObj m := by
  obtain ⟨c0, hc⟩ := normObj_contact_val m
  unfold stepContact
  rw [show dgetD (normObj m) "contact" (.obj []) = .obj (normContact c0)
      from by simp [dgetD, hc],
    show asObj (.obj (normContact c0)) = normContact c0 from rfl,
    normContact_idem]
  exact dset_self_of_dget hc

theorem stepLanguages_fix (m : List (String × JValue)) :
    stepLanguages (normObj m) = normObj m := by
  obtain ⟨l0, hl⟩ := normObj_languages_val m
  unfold stepLanguages
  rw [show dgetD (normObj m) "languages" (.arr []) =
        .arr (l0.filterMap normLangEntry) from by simp [dgetD, hl],
    show asArr (.arr (l0.filterMap normLangEntry)) = l0.filterMap normLangEntry
      from rfl,
    filterMap_idem (fun a b h => normLangEntry_stable h)]
  exact dset_self_of_dget hl

theorem stepCerts_fix (m : List (String × JValue)) :
    stepCerts (normObj m) = normObj m := by
  obtain ⟨l0, hl⟩ := normObj_certifications_val m
  unfold stepCerts
  rw [show dgetD (normObj m) "certifications" (.arr []) = .arr (strListOf l0)
      from by simp [dgetD, hl],
    show coerceToList (.arr (strListOf l0)) = strListOf l0 from rfl,
    strListOf_strListOf]
  exact dset_self_of_dget hl

theorem stepSkills_fix (m : List (String × JValue)) :
    stepSkills (normObj m) = normObj m := by
  obtain ⟨l0, hl⟩ := normObj_skills_val m
  unfold stepSkills
  rw [show dgetD (normObj m) "skills" (.arr []) =
        .arr (l0.filterMap normSkillEntry) from by simp [dgetD, hl],
    show skillsRaw (.arr (l0.filterMap normSkillEntry)) =
        l0.filterMap normSkillEntry from rfl,
    filterMap_idem (fun a b h => normSkillEntry_stable h)]
  exact dset_self_of_dget hl

theorem stepExperience_fix (m : List (String × JValue)) :
    stepExperience (normObj m) = normObj m := by
  obtain ⟨l0, hl⟩ := normObj_experience_val m
  unfold stepExperience
  rw [show dgetD (normObj m) "experience" (.arr []) =
        .arr (l0.filterMap normExpEntry) from by simp [dgetD, hl],
    show asArr (.arr (l0.filterMap normExpEntry)) = l0.filterMap normExpEntry
      from rfl,
    filterMap_idem (fun a b h => normExpEntry_stable h)]
  exact dset_self_of_dget hl

theorem stepEducation_fix (m : List (String × JValue)) :
    stepEducation (normObj m) = normObj m := by
  obtain ⟨l0, hl⟩ := normObj_education_val m
  unfold stepEducation
  rw [show dgetD (normObj m) "education" (.arr []) =
        .arr (l0.filterMap normEduEntry) from by simp [dgetD, hl],
    show asArr (.arr (l0.filterMap normEduEntry)) = l0.filterMap normEduEntry
      from rfl,
    filterMap_idem (fun a b h => normEduEntry_stable h)]
  exact dset_self_of_dget hl

theorem stepInterests_fix (m : List (String × JValue)) :
    stepInterests (normObj m) = normObj m := by
  obtain ⟨l0, hl⟩ := normObj_interests_val m
  unfold stepInterests
  rw [show dgetD (normObj m) "interests" (.arr []) = .arr (strListOf l0)
      from by simp [dgetD, hl],
    show coerceToList (.arr (strListOf l0)) = strListOf l0 from rfl,
    strListOf_strListOf]
  exact dset_self_of_dget hl

theorem stepAdditional_fix (m : List (String × JValue)) :
    stepAdditional (normObj m) = normObj m := by
  obtain ⟨l0, hl⟩ := normObj_additional_val m
  unfold stepAdditional
  rw [show dgetD (normObj m) "additional_info" (.arr []) = .arr (strListOf l0)
      from by simp [dgetD, hl],
    show coerceToList (.arr (strListOf l0)) = strListOf l0 from rfl,
    strListOf_strListOf]
  exact dset_self_of_dget hl

theorem normObj_idem (m : List (String × JValue)) :
    normObj (normObj m) = normObj m := by
  show stepAdditional (stepInterests (stepEducation (stepExperience
    (stepSkills (stepCerts (stepLanguages (stepContact
      (stepScalars (normObj m))))))))) = normObj m
  rw [stepScalars_fix, stepContact_fix, stepLanguages_fix, stepCerts_fix,
    stepSkills_fix, stepExperience_fix, stepEducation_fix,
    stepInterests_fix, stepAdditional_fix]

/-- C4: `normalize_resume_data` is idempotent — a second pass returns the
first pass's output unchanged (structural equality of the model, which is
stronger than Python's order-insensitive dict `==`). -/
theorem c4_normalize_idempotent (x : JValue) :
    normalize_resume_data (normalize_resume_data x) = normalize_resume_data x := by
  show JValue.obj (normObj (asObj (.obj (normObj (asObj x))))) =
    .obj (normObj (asObj x))
  rw [show asObj (.obj (normObj (asObj x))) = normObj (asObj x) from rfl,
    normObj_idem]

/-! ## C3 — the four-strategy JSON repair of `parse_llm_response` -/

theorem afterFence_eq (text : String) :
    parse_llm_response.afterFence text =
      ((braceSpan text.data).bind pyJsonLoads).orElse
        (fun _ => pyJsonLoads (String.mk (stripTrailingCommas text.data))) := by
  unfold parse_llm_response.afterFence
  cases h : braceSpan text.data with
  | none => simp [Option.orElse]
  | some b =>
      cases hb : pyJsonLoads b with
      | some v => simp [Option.orElse, hb]
      | none => simp [Option.orElse, hb]

/-- C3: `parse_llm_response` tries direct parse, Markdown-fence
extraction, first-brace-span extraction, and trailing-comma stripping in
that fixed order, returns the first success, and fails (raises) exactly
when all four strategies fail; the three spec examples behave as stated
(the fenced `{"a": 1}` and the trailing-comma `{"a": 1,}` both parse to
`{"a": 1}`, and `not json at all` raises). -/
theorem c3_parse_strategies :
    (∀ t : String, parse_llm_response t =
      (strat1 t).orElse (fun _ => (strat2 t).orElse (fun _ =>
        (strat3 t).orElse (fun _ => strat4 t)))) ∧
    (∀ t : String, parse_llm_response t = none ↔
      strat1 t = none ∧ strat2 t = none ∧ strat3 t = none ∧ strat4 t = none) ∧
    parse_llm_response "```json\n\x7b\"a\": 1\x7d\n```" =
      some (.obj [("a", .int 1)]) ∧
    parse_llm_response "\x7b\"a\": 1,\x7d" = some (.obj [("a", .int 1)]) ∧
    parse_llm_response "not json at all" = none := by
  have horder : ∀ t : String, parse_llm_response t =
      (strat1 t).orElse (fun _ => (strat2 t).orElse (fun _ =>
        (strat3 t).orElse (fun _ => strat4 t))) := by
    intro t
    unfold parse_llm_response
    simp only [strat1, strat2, strat3, strat4, afterFence_eq]
    cases h1 : pyJsonLoads (pyStrip t) with
    | some v => simp [Option.orElse, h1]
    | none =>
        cases h2 : findFence (pyStrip t).data with
        | none => simp [Option.orElse, Option.bind, h2]
        | some g =>
            cases h3 : pyJsonLoads (pyStrip g) with
            | some v => simp [Option.orElse, Option.bind, h2, h3]
            | none => simp [Option.orElse, Option.bind, h2, h3]
  refine ⟨horder, ?_, rfl, rfl, rfl⟩
  intro t
  rw [horder t]
  cases strat1 t with
  | some v => simp [Option.orElse]
  | none =>
      cases strat2 t with
      | some v => simp [Option.orElse]
      | none =>
          cases strat3 t with
          | some v => simp [Option.orElse]
          | none => simp [Option.orElse]

/-! ## C9 — stable descending ranking and report order -/

theorem mem_insertDesc {x a : String × Nat} {l : List (String × Nat)} :
    a ∈ insertDesc x l ↔ a = x ∨ a ∈ l := by
  induction l with
  | nil => simp [insertDesc]
  | cons y t ih =>
      simp only [insertDesc]
      by_cases h : x.2 ≤ y.2
      · rw [if_pos h]
        simp only [List.mem_cons, ih]
        tauto
      · rw [if_neg h]
        simp only [List.mem_cons]

theorem pairwise_insertDesc {x : String × Nat} {l : List (String × Nat)}
    (hl : List.Pairwise (fun a b => b.2 ≤ a.2) l) :
    List.Pairwise (fun a b => b.2 ≤ a.2) (insertDesc x l) := by
  induction l with
  | nil => simp [insertDesc]
  | cons y t ih =>
      rw [List.pairwise_cons] at hl
      obtain ⟨hy, ht⟩ := hl
      simp only [insertDesc]
      by_cases h : x.2 ≤ y.2
      · rw [if_pos h, List.pairwise_cons]
        refine ⟨?_, ih ht⟩
        intro a ha
        rcases mem_insertDesc.mp ha with rfl | ha
        · exact h
        · exact hy a ha
      · rw [if_neg h, List.pairwise_cons]
        refine ⟨?_, List.Pairwise.cons hy ht⟩
        intro a ha
        rcases List.mem_cons.mp ha with rfl | ha
        · omega
        · have := hy a ha
          omega

theorem filter_insertDesc {x : String × Nat} {l : List (String × Nat)}
    (hl : List.Pairwise (fun a b => b.2 ≤ a.2) l) (c : Nat) :
    (insertDesc x l).filter (fun p => decide (p.2 = c)) =
      l.filter (fun p => decide (p.2 = c)) ++ if x.2 = c then [x] else [] := by
  induction l with
  | nil =>
      by_cases h : x.2 = c <;> simp [insertDesc, h]
  | cons y t ih =>
      rw [List.pairwise_cons] at hl
      obtain ⟨hy, ht⟩ := hl
      simp only [insertDesc]
      by_cases h : x.2 ≤ y.2
      · rw [if_pos h]
        by_cases hyc : y.2 = c <;> simp [List.filter_cons, hyc, ih ht]
      · rw [if_neg h]
        by_cases hxc : x.2 = c
        · have hfilt : (y :: t).filter (fun p => decide (p.2 = c)) = [] := by
            rw [List.filter_eq_nil_iff]
            intro a ha
            rcases List.mem_cons.mp ha with rfl | hat
            · simp; omega
            · have := hy a hat
              simp; omega
          simp [List.filter_cons, hxc, hfilt]
        · simp [List.filter_cons, hxc]

theorem sortDesc_inv (l : List (String × Nat)) :
    List.Pairwise (fun a b => b.2 ≤ a.2) (sortDesc l) ∧
    ∀ c, (sortDesc l).filter (fun p => decide (p.2 = c)) =
      l.filter (fun p => decide (p.2 = c)) := by
  suffices h : ∀ acc, List.Pairwise (fun a b => b.2 ≤ a.2) acc →
      List.Pairwise (fun a b => b.2 ≤ a.2)
        (List.foldl (fun acc x => insertDesc x acc) acc l) ∧
      ∀ c, (List.foldl (fun acc x => insertDesc x acc) acc l).filter
          (fun p => decide (p.2 = c)) =
        acc.filter (fun p => decide (p.2 = c)) ++
          l.filter (fun p => decide (p.2 = c)) by
    obtain ⟨h1, h2⟩ := h [] (by simp)
    exact ⟨h1, fun c => by simpa [sortDesc] using h2 c⟩
  induction l with
  | nil =>
      intro acc hacc
      exact ⟨hacc, fun c => by simp⟩
  | cons x t ih =>
      intro acc hacc
      obtain ⟨ha, hb⟩ := ih (insertDesc x acc) (pairwise_insertDesc hacc)
      refine ⟨ha, fun c => ?_⟩
      rw [List.foldl_cons, hb c, filter_insertDesc hacc c, List.filter_cons]
      by_cases hxc : x.2 = c <;> simp [hxc, List.append_assoc]

theorem atsLoop_matched (cvk top : List (String × Nat)) :
    (atsLoop cvk top).2.2.1 =
      (top.filter (fun p => (freqGet cvk p.1).isSome)).map Prod.fst := by
  induction top with
  | nil => rfl
  | cons p t ih =>
      obtain ⟨w, wt⟩ := p
      simp only [atsLoop]
      cases hf : freqGet cvk w with
      | some cnt => simp [List.filter_cons, hf, ih]
      | none => simp [List.filter_cons, hf, ih]

theorem atsLoop_missing (cvk top : List (String × Nat)) :
    (atsLoop cvk top).2.2.2 =
      (top.filter (fun p => !(freqGet cvk p.1).isSome)).map Prod.fst := by
  induction top with
  | nil => rfl
  | cons p t ih =>
      obtain ⟨w, wt⟩ := p
      simp only [atsLoop]
      cases hf : freqGet cvk w with
      | some cnt => simp [List.filter_cons, hf, ih]
      | none => simp [List.filter_cons, hf, ih]

theorem atsLoop_total (cvk top : List (String × Nat)) :
    (atsLoop cvk top).2.1 = (top.map Prod.snd).sum := by
  induction top with
  | nil => rfl
  | cons p t ih =>
      obtain ⟨w, wt⟩ := p
      simp only [atsLoop]
      cases hf : freqGet cvk w with
      | some cnt => simp [hf, ih]
      | none => simp [hf, ih]

theorem atsLoop_score (cvk top : List (String × Nat)) :
    (atsLoop cvk top).1 =
      ((top.filter (fun p => (freqGet cvk p.1).isSome)).map
        (fun p => min ((freqGet cvk p.1).getD 0) p.2)).sum := by
  induction top with
  | nil => rfl
  | cons p t ih =>
      obtain ⟨w, wt⟩ := p
      simp only [atsLoop]
      cases hf : freqGet cvk w with
      | some cnt => simp [List.filter_cons, hf, ih]
      | none => simp [List.filter_cons, hf, ih]

/-- C9: the scorer ranks job-description keywords by a stable descending
sort on frequency (ties keep the frequency map's insertion — i.e. first
encounter — order: the sorted list restricted to any fixed frequency `c`
equals the original restriction), takes the first 20, and reports
matched/missing in that ranking order, truncated to 10 entries each. -/
theorem c9_ranking (cv_text job_description : String) :
    ((compute_ats_score cv_text job_description).matched =
      ((((sortDesc (extract_keywords job_description)).take 20).filter
        (fun p => (freqGet (extract_keywords cv_text) p.1).isSome)).map
          Prod.fst).take 10) ∧
    ((compute_ats_score cv_text job_description).missing =
      ((((sortDesc (extract_keywords job_description)).take 20).filter
        (fun p => !(freqGet (extract_keywords cv_text) p.1).isSome)).map
          Prod.fst).take 10) ∧
    List.Pairwise (fun a b => b.2 ≤ a.2)
      (sortDesc (extract_keywords job_description)) ∧
    (∀ c, (sortDesc (extract_keywords job_description)).filter
        (fun p => decide (p.2 = c)) =
      (extract_keywords job_description).filter (fun p => decide (p.2 = c))) := by
  obtain ⟨hsort, hstab⟩ := sortDesc_inv (extract_keywords job_description)
  refine ⟨?_, ?_, hsort, hstab⟩ <;>
  · cases hj : (extract_keywords job_description).isEmpty
    · simp [compute_ats_score, hj, atsLoop_matched, atsLoop_missing]
    · have : extract_keywords job_description = [] := by
        simpa using hj
      simp [compute_ats_score, hj, this, sortDesc]

/-! ## Bounds for the double-precision score arithmetic (C7 / C10) -/

theorem le_rndHalfEven (m : ℚ) : ⌊m⌋ ≤ rndHalfEven m := by
  simp only [rndHalfEven]
  split_ifs <;> omega

theorem rndHalfEven_le_ceil (m : ℚ) : rndHalfEven m ≤ ⌈m⌉ := by
  simp only [rndHalfEven]
  split_ifs with h1 h2 h3
  · exact Int.floor_le_ceil m
  · exact Int.add_one_le_ceil_iff.mpr (by linarith [Int.floor_le m])
  · exact Int.floor_le_ceil m
  · have h12 : m - (⌊m⌋ : ℚ) = 1 / 2 := le_antisymm (not_lt.mp h2) (not_lt.mp h1)
    exact Int.add_one_le_ceil_iff.mpr (by linarith)

theorem rndHalfEven_nonneg {m : ℚ} (hm : 0 ≤ m) : 0 ≤ rndHalfEven m :=
  le_trans (Int.floor_nonneg.mpr hm) (le_rndHalfEven m)

theorem roundDouble_zero : roundDouble 0 = 0 := by
  simp [roundDouble]

theorem roundDouble_nonneg {q : ℚ} (hq : 0 ≤ q) : 0 ≤ roundDouble q := by
  simp only [roundDouble]
  by_cases h0 : q = 0
  · rw [if_pos h0]
  · rw [if_neg h0, if_neg (not_lt.mpr hq)]
    have hm : (0 : ℚ) ≤ |q| * (2 : ℚ) ^ ((52 : ℤ) - Int.log 2 |q|) := by positivity
    have hr : (0 : ℚ) ≤
        ((rndHalfEven (|q| * (2 : ℚ) ^ ((52 : ℤ) - Int.log 2 |q|)) : ℤ) : ℚ) := by
      exact_mod_cast rndHalfEven_nonneg hm
    have h2 : (0 : ℚ) < (2 : ℚ) ^ (Int.log 2 |q| - (52 : ℤ)) :=
      zpow_pos (by norm_num) _
    calc (0 : ℚ) ≤ 1 * ((rndHalfEven (|q| * (2 : ℚ) ^ ((52 : ℤ) - Int.log 2 |q|)) : ℤ) : ℚ) *
          (2 : ℚ) ^ (Int.log 2 |q| - (52 : ℤ)) := by
          have := mul_nonneg hr (le_of_lt h2)
          linarith
      _ = _ := by ring

theorem roundDouble_le_intBound {q : ℚ} (N : ℤ) (hq : 0 < q) (hqN : q ≤ (N : ℚ))
    (he : Int.log 2 q ≤ 52) : roundDouble q ≤ (N : ℚ) := by
  simp only [roundDouble]
  rw [if_neg (ne_of_gt hq), if_neg (not_lt.mpr (le_of_lt hq)), abs_of_pos hq]
  set e := Int.log 2 q with hee
  set k : ℕ := (52 - e).toNat with hk
  have hke : ((k : ℤ)) = 52 - e := Int.toNat_of_nonneg (by omega)
  have hpow : (2 : ℚ) ^ ((52 : ℤ) - e) = ((2 ^ k : ℤ) : ℚ) := by
    rw [← hke, zpow_natCast]
    push_cast
    ring
  have hm : q * (2 : ℚ) ^ ((52 : ℤ) - e) ≤ ((N * 2 ^ k : ℤ) : ℚ) := by
    rw [hpow]
    push_cast
    have h2k : (0 : ℚ) ≤ (2 : ℚ) ^ k := by positivity
    exact mul_le_mul_of_nonneg_right hqN h2k
  have hceil : rndHalfEven (q * (2 : ℚ) ^ ((52 : ℤ) - e)) ≤ N * 2 ^ k :=
    le_trans (rndHalfEven_le_ceil _) (Int.ceil_le.mpr hm)
  have h2pos : (0 : ℚ) < (2 : ℚ) ^ (e - (52 : ℤ)) := zpow_pos (by norm_num) _
  have hfin : ((rndHalfEven (q * (2 : ℚ) ^ ((52 : ℤ) - e)) : ℤ) : ℚ) *
      (2 : ℚ) ^ (e - (52 : ℤ)) ≤ ((N * 2 ^ k : ℤ) : ℚ) * (2 : ℚ) ^ (e - (52 : ℤ)) :=
    mul_le_mul_of_nonneg_right (by exact_mod_cast hceil) (le_of_lt h2pos)
  have hcollapse : ((N * 2 ^ k : ℤ) : ℚ) * (2 : ℚ) ^ (e - (52 : ℤ)) = (N : ℚ) := by
    push_cast
    rw [show ((2 : ℚ) ^ k : ℚ) = (2 : ℚ) ^ ((k : ℤ)) from (zpow_natCast 2 k).symm,
      hke, mul_assoc, ← zpow_add₀ (by norm_num : (2 : ℚ) ≠ 0)]
    simp
  calc 1 * ((rndHalfEven (q * (2 : ℚ) ^ ((52 : ℤ) - e)) : ℤ) : ℚ) *
        (2 : ℚ) ^ (e - (52 : ℤ))
      = ((rndHalfEven (q * (2 : ℚ) ^ ((52 : ℤ) - e)) : ℤ) : ℚ) *
        (2 : ℚ) ^ (e - (52 : ℤ)) := by ring
    _ ≤ ((N * 2 ^ k : ℤ) : ℚ) * (2 : ℚ) ^ (e - (52 : ℤ)) := hfin
    _ = (N : ℚ) := hcollapse

theorem dblDiv_unit {s w : ℕ} (hw : 0 < w) (hsw : s ≤ w) :
    0 ≤ dblDiv (s : ℚ) (w : ℚ) ∧ dblDiv (s : ℚ) (w : ℚ) ≤ 1 := by
  unfold dblDiv
  have hq0 : (0 : ℚ) ≤ (s : ℚ) / (w : ℚ) := by positivity
  refine ⟨roundDouble_nonneg hq0, ?_⟩
  by_cases hs : (s : ℚ) / (w : ℚ) = 0
  · rw [hs, roundDouble_zero]
    norm_num
  · have hqpos : 0 < (s : ℚ) / (w : ℚ) := lt_of_le_of_ne hq0 (Ne.symm hs)
    have hle1 : (s : ℚ) / (w : ℚ) ≤ 1 := by
      rw [div_le_one (by exact_mod_cast hw)]
      exact_mod_cast hsw
    have hlog : Int.log 2 ((s : ℚ) / (w : ℚ)) ≤ 52 := by
      have h1 : (s : ℚ) / (w : ℚ) < ((2 : ℕ) : ℚ) ^ (1 : ℤ) := by
        push_cast
        linarith
      have := (Int.lt_zpow_iff_log_lt (by norm_num) hqpos).mp h1
      omega
    have := roundDouble_le_intBound 1 hqpos (by exact_mod_cast hle1) hlog
    simpa using this

theorem dblMul100_bounds {x : ℚ} (hx0 : 0 ≤ x) (hx1 : x ≤ 1) :
    0 ≤ dblMul x 100 ∧ dblMul x 100 ≤ 100 := by
  unfold dblMul
  have h0 : (0 : ℚ) ≤ x * 100 := by positivity
  refine ⟨roundDouble_nonneg h0, ?_⟩
  by_cases hz : x * 100 = 0
  · rw [hz, roundDouble_zero]
    norm_num
  · have hpos : 0 < x * 100 := lt_of_le_of_ne h0 (Ne.symm hz)
    have hle : x * 100 ≤ (100 : ℚ) := by nlinarith
    have hlog : Int.log 2 (x * 100) ≤ 52 := by
      have h7 : x * 100 < ((2 : ℕ) : ℚ) ^ (7 : ℤ) := by
        push_cast
        nlinarith
      have := (Int.lt_zpow_iff_log_lt (by norm_num) hpos).mp h7
      omega
    have := roundDouble_le_intBound 100 hpos (by exact_mod_cast hle) hlog
    simpa using this

theorem ratTrunc_bounds {p : ℚ} (h0 : 0 ≤ p) (h100 : p ≤ 100) :
    0 ≤ ratTrunc p ∧ ratTrunc p ≤ 100 := by
  unfold ratTrunc
  rw [if_pos h0]
  refine ⟨Int.floor_nonneg.mpr h0, ?_⟩
  have := Int.floor_le_floor h100
  have h100' : ⌊(100 : ℚ)⌋ = 100 := by norm_num
  omega

theorem atsLoop_score_le_total (cvk top : List (String × Nat)) :
    (atsLoop cvk top).1 ≤ (atsLoop cvk top).2.1 := by
  induction top with
  | nil => exact le_refl 0
  | cons p t ih =>
      obtain ⟨w, wt⟩ := p
      simp only [atsLoop]
      cases hf : freqGet cvk w with
      | some cnt =>
          simp only
          have := min_le_right cnt wt
          omega
      | none =>
          simp only
          omega

/-- The final-score arithmetic of `compute_ats_score`, isolated: for
`score ≤ total_weight` the pre-bonus value lies in `[0, 100]`, and the
bonus rule makes the result `0` or a value in `[11, 100]`. -/
theorem score_formula_cases (s w : ℕ) (hsw : s ≤ w) :
    (0 ≤ (if 0 < w then ratTrunc (dblMul (dblDiv (s : ℚ) (w : ℚ)) 100) else 0) ∧
     (if 0 < w then ratTrunc (dblMul (dblDiv (s : ℚ) (w : ℚ)) 100) else 0) ≤ 100) ∧
    ((if 0 < (if 0 < w then ratTrunc (dblMul (dblDiv (s : ℚ) (w : ℚ)) 100) else 0)
        then min 100 ((if 0 < w then
          ratTrunc (dblMul (dblDiv (s : ℚ) (w : ℚ)) 100) else 0) + 10)
        else (if 0 < w then ratTrunc (dblMul (dblDiv (s : ℚ) (w : ℚ)) 100) else 0)) = 0 ∨
      (11 ≤ (if 0 < (if 0 < w then ratTrunc (dblMul (dblDiv (s : ℚ) (w : ℚ)) 100) else 0)
        then min 100 ((if 0 < w then
          ratTrunc (dblMul (dblDiv (s : ℚ) (w : ℚ)) 100) else 0) + 10)
        else (if 0 < w then ratTrunc (dblMul (dblDiv (s : ℚ) (w : ℚ)) 100) else 0)) ∧
       (if 0 < (if 0 < w then ratTrunc (dblMul (dblDiv (s : ℚ) (w : ℚ)) 100) else 0)
        then min 100 ((if 0 < w then
          ratTrunc (dblMul (dblDiv (s : ℚ) (w : ℚ)) 100) else 0) + 10)
        else (if 0 < w then ratTrunc (dblMul (dblDiv (s : ℚ) (w : ℚ)) 100) else 0)) ≤ 100)) := by
  by_cases hw : 0 < w
  · obtain ⟨hd0, hd1⟩ := dblDiv_unit hw hsw
    obtain ⟨hm0, hm1⟩ := dblMul100_bounds hd0 hd1
    obtain ⟨ht0, ht1⟩ := ratTrunc_bounds hm0 hm1
    rw [if_pos hw]
    refine ⟨⟨ht0, ht1⟩, ?_⟩
    by_cases hf : 0 < ratTrunc (dblMul (dblDiv (s : ℚ) (w : ℚ)) 100)
    · right
      rw [if_pos hf]
      constructor
      · have : 11 ≤ ratTrunc (dblMul (dblDiv (s : ℚ) (w : ℚ)) 100) + 10 := by omega
        omega
      · exact min_le_left _ _
    · left
      rw [if_neg hf]
      omega
  · rw [if_neg hw]
    exact ⟨⟨le_refl 0, by norm_num⟩, Or.inl (by norm_num)⟩

/-! ## C10 — the score is 0 or in [11, 100] -/

/-- C10: the returned score is never strictly between 0 and 11 — whenever
the pre-bonus truncated ratio is positive the +10 bonus applies (capped at
100), so the result is exactly 0 or lies in [11, 100]. -/
theorem c10_score_gap (cv_text job_description : String) :
    (compute_ats_score cv_text job_description).score = 0 ∨
    (11 ≤ (compute_ats_score cv_text job_description).score ∧
     (compute_ats_score cv_text job_description).score ≤ 100) := by
  simp only [compute_ats_score]
  cases hj : (extract_keywords job_description).isEmpty with
  | true => simp
  | false =>
      simp only [Bool.false_eq_true, if_false]
      exact (score_formula_cases _ _ (atsLoop_score_le_total
        (extract_keywords cv_text)
        ((sortDesc (extract_keywords job_description)).take 20))).2

/-! ## C7 — the final-score formula and its bounds -/

theorem int_log2_eq (e : ℤ) {q : ℚ} (hq : 0 < q)
    (h1 : ((2 : ℕ) : ℚ) ^ e ≤ q) (h2 : q < ((2 : ℕ) : ℚ) ^ (e + 1)) :
    Int.log 2 q = e := by
  have hle : e ≤ Int.log 2 q := (Int.zpow_le_iff_le_log (by norm_num) hq).mp h1
  have hlt : Int.log 2 q < e + 1 := (Int.lt_zpow_iff_log_lt (by norm_num) hq).mp h2
  omega

theorem roundDouble_eval {q : ℚ} (e n : ℤ) (hq : 0 < q)
    (hlog : Int.log 2 q = e)
    (hrnd : rndHalfEven (q * (2 : ℚ) ^ ((52 : ℤ) - e)) = n) :
    roundDouble q = (n : ℚ) * (2 : ℚ) ^ (e - (52 : ℤ)) := by
  simp only [roundDouble]
  rw [if_neg (ne_of_gt hq), if_neg (not_lt.mpr (le_of_lt hq)), abs_of_pos hq,
    hlog, hrnd]
  ring

/-- C7 as stated is false on the code: the division runs in IEEE doubles,
and `int((29/50) * 100)` evaluates to 57 although
`floor(100 * 29 / 50) = 58`.  With the +10 bonus the code returns 67 where
the floor formula gives 68.  Job description: `"python"` repeated 50
times; candidate text: `"python"` repeated 29 times. -/
theorem c7_counterexample :
    (compute_ats_score (String.intercalate " " (List.replicate 29 "python"))
        (String.intercalate " " (List.replicate 50 "python"))).score = 67 ∧
    specFloorScore (String.intercalate " " (List.replicate 29 "python"))
        (String.intercalate " " (List.replicate 50 "python")) = 68 := by
  have hjd : extract_keywords
      (String.intercalate " " (List.replicate 50 "python")) =
      [("python", 50)] := by rfl
  have hcv : extract_keywords
      (String.intercalate " " (List.replicate 29 "python")) =
      [("python", 29)] := by rfl
  have hq1 : (0 : ℚ) < 29 / 50 := by norm_num
  have e1 : Int.log 2 ((29 : ℚ) / 50) = -1 :=
    int_log2_eq (-1) hq1 (by push_cast; norm_num) (by push_cast; norm_num)
  have n1 : rndHalfEven ((29 : ℚ) / 50 * (2 : ℚ) ^ ((52 : ℤ) - (-1))) =
      5224175567749775 :=
    rndHalfEven_eq_low 5224175567749775 (by norm_num) (by norm_num)
  have hd1 : dblDiv (29 : ℚ) (50 : ℚ) =
      (5224175567749775 : ℚ) * (2 : ℚ) ^ ((-1 : ℤ) - 52) := by
    unfold dblDiv
    exact roundDouble_eval (-1) 5224175567749775 hq1 e1 n1
  have hq2 : (0 : ℚ) < (5224175567749775 : ℚ) * (2 : ℚ) ^ ((-1 : ℤ) - 52) := by
    positivity
  have e2 : Int.log 2 ((5224175567749775 : ℚ) * (2 : ℚ) ^ ((-1 : ℤ) - 52) * 100) = 5 :=
    int_log2_eq 5 (by positivity) (by push_cast; norm_num) (by push_cast; norm_num)
  have n2 : rndHalfEven ((5224175567749775 : ℚ) * (2 : ℚ) ^ ((-1 : ℤ) - 52) * 100 *
      (2 : ℚ) ^ ((52 : ℤ) - 5)) = 8162774324609023 :=
    rndHalfEven_eq_low 8162774324609023 (by norm_num) (by norm_num)
  have hd2 : dblMul ((5224175567749775 : ℚ) * (2 : ℚ) ^ ((-1 : ℤ) - 52)) 100 =
      (8162774324609023 : ℚ) * (2 : ℚ) ^ ((5 : ℤ) - 52) := by
    unfold dblMul
    exact roundDouble_eval 5 8162774324609023 (by positivity) e2 n2
  have tr : ratTrunc ((8162774324609023 : ℚ) * (2 : ℚ) ^ ((5 : ℤ) - 52)) = 57 := by
    unfold ratTrunc
    rw [if_pos (by positivity)]
    exact Int.floor_eq_iff.mpr ⟨by push_cast; norm_num, by push_cast; norm_num⟩
  have hfull : ratTrunc (dblMul (dblDiv (29 : ℚ) (50 : ℚ)) 100) = 57 := by
    rw [hd1, hd2, tr]
  constructor
  · simp only [compute_ats_score, hjd, hcv]
    norm_num [sortDesc, insertDesc, atsLoop, freqGet, hfull]
  · simp only [specFloorScore, hjd, hcv]
    norm_num [sortDesc, insertDesc, atsLoop, freqGet]
    decide

/-- C7 amended: the returned score is an integer in [0, 100]; when the
job-description keyword map is non-empty it equals the bonus rule applied
to `int((score / total_weight) * 100)` computed in IEEE double precision —
which can be one less than `floor(100 * score / total_weight)` — where
`score` and `total_weight` are the frequency sums over the top-20
keywords (`0` when `total_weight = 0`), and the flat +10 bonus capped at
100 is applied exactly when that truncated value is positive. -/
theorem c7_amended (cv_text job_description : String) :
    (0 ≤ (compute_ats_score cv_text job_description).score ∧
     (compute_ats_score cv_text job_description).score ≤ 100) ∧
    (compute_ats_score cv_text job_description).score =
      (if (extract_keywords job_description).isEmpty then 0
       else
         (fun (s w : ℕ) =>
           if 0 < (if 0 < w then ratTrunc (dblMul (dblDiv (s : ℚ) (w : ℚ)) 100) else 0)
           then min 100 ((if 0 < w then
             ratTrunc (dblMul (dblDiv (s : ℚ) (w : ℚ)) 100) else 0) + 10)
           else (if 0 < w then ratTrunc (dblMul (dblDiv (s : ℚ) (w : ℚ)) 100) else 0))
         (((((sortDesc (extract_keywords job_description)).take 20).filter
             (fun p => (freqGet (extract_keywords cv_text) p.1).isSome)).map
               (fun p => min ((freqGet (extract_keywords cv_text) p.1).getD 0) p.2)).sum)
         ((((sortDesc (extract_keywords job_description)).take 20).map Prod.snd).sum)) := by
  constructor
  · simp only [compute_ats_score]
    cases hj : (extract_keywords job_description).isEmpty with
    | true => simp
    | false =>
        simp only [Bool.false_eq_true, if_false]
        rcases (score_formula_cases _ _ (atsLoop_score_le_total
          (extract_keywords cv_text)
          ((sortDesc (extract_keywords job_description)).take 20))).2 with
          h | ⟨h1, h2⟩
        · rw [h]
          norm_num
        · omega
  · simp only [compute_ats_score]
    cases hj : (extract_keywords job_description).isEmpty with
    | true => simp
    | false =>
        simp only [Bool.false_eq_true, if_false]
        rw [atsLoop_score, atsLoop_total]

end CvBuilder
